import Mathlib

/-!
Verification of the document-tree core of the `azul` GUI toolkit
(`src/azul/src/dom.rs`), as a shallow embedding in Lean 4.

Modelling conventions:
* Machine integers (`usize`, `u64`) are modelled as `Nat`; the arena indices
  involved never overflow in the algorithms under study, and no wrapping
  arithmetic occurs in the translated code paths.
* Opaque handles compared only by identity (function pointers cast to
  `usize`, `TextId`, `ImageId`, `DefaultCallbackId`, `StackCheckedPointer`,
  `CssProperty`) are modelled as `Nat` identifiers.
* Fallible code (Rust indexing panics, `Option::unwrap`) is modelled with
  `Option`: a `none` result corresponds to a panic.
-/

namespace Azul

/-- `HoverEventFilter` from `dom.rs`. -/
inductive HoverEventFilter
  | MouseOver
  | MouseDown
  | LeftMouseDown
  | RightMouseDown
  | MiddleMouseDown
  | MouseUp
  | LeftMouseUp
  | RightMouseUp
  | MiddleMouseUp
  | MouseEnter
  | MouseLeave
  | Scroll
  | TextInput
  | VirtualKeyDown
  | VirtualKeyUp
  | HoveredFile
  | DroppedFile
  | HoveredFileCancelled
deriving DecidableEq, Repr

/-- `FocusEventFilter` from `dom.rs`. -/
inductive FocusEventFilter
  | MouseOver
  | MouseDown
  | LeftMouseDown
  | RightMouseDown
  | MiddleMouseDown
  | MouseUp
  | LeftMouseUp
  | RightMouseUp
  | MiddleMouseUp
  | MouseEnter
  | MouseLeave
  | Scroll
  | TextInput
  | VirtualKeyDown
  | VirtualKeyUp
  | FocusReceived
  | FocusLost
deriving DecidableEq, Repr

/-- `NotEventFilter` from `dom.rs`. -/
inductive NotEventFilter
  | Hover (h : HoverEventFilter)
  | Focus (f : FocusEventFilter)
deriving DecidableEq, Repr

/-- `WindowEventFilter` from `dom.rs`. -/
inductive WindowEventFilter
  | MouseOver
  | MouseDown
  | LeftMouseDown
  | RightMouseDown
  | MiddleMouseDown
  | MouseUp
  | LeftMouseUp
  | RightMouseUp
  | MiddleMouseUp
  | MouseEnter
  | MouseLeave
  | Scroll
  | TextInput
  | VirtualKeyDown
  | VirtualKeyUp
  | HoveredFile
  | DroppedFile
  | HoveredFileCancelled
deriving DecidableEq, Repr

/-- `DesktopEventFilter` from `dom.rs`. -/
inductive DesktopEventFilter
  | DeviceAdded
  | DeviceRemoved
  | ControllerMotion
  | AppSuspended
  | AppResumed
  | Awakened
deriving DecidableEq, Repr

/-- `EventFilter` from `dom.rs`: tagged union over the five callback
categories. -/
inductive EventFilter
  | Hover (h : HoverEventFilter)
  | Not (n : NotEventFilter)
  | Focus (f : FocusEventFilter)
  | Window (w : WindowEventFilter)
  | Desktop (d : DesktopEventFilter)
deriving DecidableEq, Repr

/-- `EventFilter::as_hover_event_filter` (generated by the
`get_single_enum_type!` macro in `dom.rs`). -/
def EventFilter.as_hover_event_filter : EventFilter → Option HoverEventFilter
  | .Hover e => some e
  | _ => none

/-- `EventFilter::as_focus_event_filter`. -/
def EventFilter.as_focus_event_filter : EventFilter → Option FocusEventFilter
  | .Focus e => some e
  | _ => none

/-- `EventFilter::as_not_event_filter`. -/
def EventFilter.as_not_event_filter : EventFilter → Option NotEventFilter
  | .Not e => some e
  | _ => none

/-- `EventFilter::as_window_event_filter`. -/
def EventFilter.as_window_event_filter : EventFilter → Option WindowEventFilter
  | .Window e => some e
  | _ => none

/-- `EventFilter::as_desktop_event_filter`. -/
def EventFilter.as_desktop_event_filter : EventFilter → Option DesktopEventFilter
  | .Desktop e => some e
  | _ => none

/-- `HoverEventFilter::to_focus_event_filter` from `dom.rs` lines 502-526,
translated clause by clause.  Note that the source maps `VirtualKeyUp` to
`Some(FocusEventFilter::VirtualKeyDown)` (line 520), not to
`FocusEventFilter::VirtualKeyUp`. -/
def HoverEventFilter.to_focus_event_filter : HoverEventFilter → Option FocusEventFilter
  | .MouseOver => some .MouseOver
  | .MouseDown => some .MouseDown
  | .LeftMouseDown => some .LeftMouseDown
  | .RightMouseDown => some .RightMouseDown
  | .MiddleMouseDown => some .MiddleMouseDown
  | .MouseUp => some .MouseUp
  | .LeftMouseUp => some .LeftMouseUp
  | .RightMouseUp => some .RightMouseUp
  | .MiddleMouseUp => some .MiddleMouseUp
  | .MouseEnter => some .MouseEnter
  | .MouseLeave => some .MouseLeave
  | .Scroll => some .Scroll
  | .TextInput => some .TextInput
  | .VirtualKeyDown => some .VirtualKeyDown
  | .VirtualKeyUp => some .VirtualKeyDown
  | .HoveredFile => none
  | .DroppedFile => none
  | .HoveredFileCancelled => none

/-- `WindowEventFilter::to_hover_event_filter` from `dom.rs` lines 577-602,
translated clause by clause.  Note that the source maps `VirtualKeyUp` to
`Some(HoverEventFilter::VirtualKeyDown)` (line 593), not to
`HoverEventFilter::VirtualKeyUp`. -/
def WindowEventFilter.to_hover_event_filter : WindowEventFilter → Option HoverEventFilter
  | .MouseOver => some .MouseOver
  | .MouseDown => some .MouseDown
  | .LeftMouseDown => some .LeftMouseDown
  | .RightMouseDown => some .RightMouseDown
  | .MiddleMouseDown => some .MiddleMouseDown
  | .MouseUp => some .MouseUp
  | .LeftMouseUp => some .LeftMouseUp
  | .RightMouseUp => some .RightMouseUp
  | .MiddleMouseUp => some .MiddleMouseUp
  | .Scroll => some .Scroll
  | .TextInput => some .TextInput
  | .VirtualKeyDown => some .VirtualKeyDown
  | .VirtualKeyUp => some .VirtualKeyDown
  | .HoveredFile => some .HoveredFile
  | .DroppedFile => some .DroppedFile
  | .HoveredFileCancelled => some .HoveredFileCancelled
  | .MouseEnter => none
  | .MouseLeave => none

/-- `TabIndex` from `dom.rs`. -/
inductive TabIndex
  | Auto
  | OverrideInParent (priority : Nat)
  | Global (priority : Nat)
deriving DecidableEq, Repr

/-- `NodeType<T>` from `dom.rs`.  `TextId`, `ImageId` are opaque cache
handles; `GlTexture`/`IFrame` carry a callback function pointer and a
`StackCheckedPointer`, both compared and hashed only by identity (the
pointer value cast to `usize`).  All are modelled as `Nat` identifiers. -/
inductive NodeType
  | Div
  | Label (text : String)
  | Text (textId : Nat)
  | Image (imageId : Nat)
  | GlTexture (callback : Nat) (ptr : Nat)
  | IFrame (callback : Nat) (ptr : Nat)
deriving DecidableEq, Repr

/-- `NodeData<T>` from `dom.rs`.  `Callback<T>` and `DefaultCallbackId` are
compared/hashed by identity only and are modelled as `Nat`; `CssProperty` is
an opaque style value, also modelled as `Nat`. -/
structure NodeData where
  node_type : NodeType
  ids : List String
  classes : List String
  callbacks : List (EventFilter × Nat)
  default_callback_ids : List (EventFilter × Nat)
  dynamic_css_overrides : List (String × Nat)
  draggable : Bool
  tab_index : Option TabIndex
deriving DecidableEq, Repr

/-- `Default for NodeData<T>`. -/
def NodeData.default : NodeData :=
  { node_type := .Div
    ids := []
    classes := []
    callbacks := []
    default_callback_ids := []
    dynamic_css_overrides := []
    draggable := false
    tab_index := none }

/-- `NodeData::new`. -/
def NodeData.new (t : NodeType) : NodeData :=
  { NodeData.default with node_type := t }

/-!
## Structural hash projection

`NodeData::calculate_node_data_hash` feeds the node payload into
`std::collections::hash_map::DefaultHasher` via the manual
`Hash for NodeData<T>` impl (dom.rs lines 721-742) and returns the finished
`u64` wrapped in `DomHash`.

The hasher itself (SipHash 1-3 with the fixed `DefaultHasher` keys) is
external standard-library code; its output is a function of exactly the
sequence of values written into it.  We therefore model a `DomHash` as that
written sequence itself: by construction, modelled hashes are equal exactly
when the real hasher is fed identical input streams.  Each `HashTok` is one
primitive write performed by the `Hash` impls involved:

* `str s` — `String`/`str` hashing (writes the UTF-8 bytes plus a `0xff`
  terminator, which never occurs in UTF-8, so the token is self-delimiting);
* `discr n` — the `mem::discriminant` write in `Hash for NodeType<T>`;
* `usizeTok n` — a `write_usize` of an identity handle (`Callback`,
  `StackCheckedPointer`, `TextId`, `ImageId`, `DefaultCallbackId`);
* `efTok e` — the writes of the derived `Hash` for `EventFilter` (variant
  discriminants plus nested filter enum payloads, injective on the value);
* `cssTok n` — the writes of `Hash` for the opaque `CssProperty` value;
* `boolTok b` — the `write_u8` of the `draggable` flag;
* `tabTok t` — the writes of the derived `Hash` for `Option<TabIndex>`.
-/
inductive HashTok
  | str (s : String)
  | discr (n : Nat)
  | usizeTok (n : Nat)
  | efTok (e : EventFilter)
  | cssTok (n : Nat)
  | boolTok (b : Bool)
  | tabTok (t : Option TabIndex)
deriving DecidableEq, Repr

/-- The write stream of `Hash for NodeType<T>` (dom.rs lines 222-242):
the `mem::discriminant`, then the payload writes of the matched variant. -/
def NodeType.hashStream : NodeType → List HashTok
  | .Div => [.discr 0]
  | .Label s => [.discr 1, .str s]
  | .Text tid => [.discr 2, .usizeTok tid]
  | .Image iid => [.discr 3, .usizeTok iid]
  | .GlTexture cb ptr => [.discr 4, .usizeTok cb, .usizeTok ptr]
  | .IFrame cb ptr => [.discr 5, .usizeTok cb, .usizeTok ptr]

/-- The write stream of `Hash for NodeData<T>` (dom.rs lines 721-742): the
node type, then each id, each class, each callback pair, each default
callback pair and each css override pair in order (with no length prefix or
field separator, exactly as the source's `for` loops), then the draggable
flag and the tab index. -/
def NodeData.hashStream (d : NodeData) : List HashTok :=
  d.node_type.hashStream
    ++ d.ids.map HashTok.str
    ++ d.classes.map HashTok.str
    ++ (d.callbacks.map (fun p => [HashTok.efTok p.1, HashTok.usizeTok p.2])).flatten
    ++ (d.default_callback_ids.map (fun p => [HashTok.efTok p.1, HashTok.usizeTok p.2])).flatten
    ++ (d.dynamic_css_overrides.map (fun p => [HashTok.str p.1, HashTok.cssTok p.2])).flatten
    ++ [.boolTok d.draggable, .tabTok d.tab_index]

/-- `DomHash`, modelled as the hasher input stream (see above). -/
structure DomHash where
  stream : List HashTok
deriving DecidableEq, Repr

/-- `NodeData::calculate_node_data_hash` (dom.rs lines 806-818). -/
def NodeData.calculate_node_data_hash (d : NodeData) : DomHash :=
  ⟨d.hashStream⟩

/-!
## Arena topology and Document
-/

/-- `Node` from `id_tree`: the per-slot topology pointers (parent,
previous/next sibling, first/last child), each an optional arena index. -/
structure Node where
  parent : Option Nat
  previous_sibling : Option Nat
  next_sibling : Option Nat
  first_child : Option Nat
  last_child : Option Nat
deriving DecidableEq, Repr

/-- A node with all five topology pointers empty, as allocated by
`Arena::new_node` and as the synthetic root in `FromIterator`. -/
def nullNode : Node :=
  { parent := none, previous_sibling := none, next_sibling := none
    first_child := none, last_child := none }

/-- `Dom<T>` from `dom.rs`: one arena — the parallel sequences
`node_layout` (topology) and `node_data` (payload) — plus the `root` and
`head` indices.  The payload type is a parameter, as `NodeData<T>` is in the
source. -/
structure Dom (α : Type) where
  node_layout : List Node
  node_data : List α
  root : Nat
  head : Nat
deriving DecidableEq, Repr

/-- Modelled from the spec: `Arena::len` lives in the `id_tree` module,
which is not under `src/`; spec section 4.1 defines it as the number of
nodes.  `Dom::len` (dom.rs line 980) just delegates to it. -/
def Dom.len {α : Type} (d : Dom α) : Nat := d.node_layout.length

/-- Total arena read: out-of-range reads return the empty node.  Every
translated code path below that performs a Rust index operation guards the
index (an out-of-range access is a panic, modelled as `none` by the
functions that can reach one), so this default is never observable. -/
def getN (l : List Node) (i : Nat) : Node := l.getD i nullNode

/-- In-place update of one slot, `arena.node_layout[i].field = v` in the
source; leaves the list unchanged when `i` is out of range (the translated
code only uses it on guarded indices). -/
def modifyAt {α : Type} : List α → Nat → (α → α) → List α
  | [], _, _ => []
  | a :: t, 0, f => f a :: t
  | a :: t, i + 1, f => a :: modifyAt t i f

/-!
## `FromIterator<NodeData<T>> for Dom<T>` (dom.rs lines 872-927)
-/

/-- The topology node pushed for the item processed at loop counter `idx`
(dom.rs lines 893-899); the item itself lands at arena index `idx + 1`. -/
def iterNode (idx : Nat) : Node :=
  { parent := some 0
    previous_sibling := if idx = 0 then none else some idx
    next_sibling := some (idx + 2)
    first_child := none
    last_child := none }

/-- One iteration of the `for item in iter` loop (dom.rs lines 892-904):
push the topology node and the payload, increment `idx`. -/
def fromIterStep (acc : List Node × List NodeData × Nat) (item : NodeData) :
    List Node × List NodeData × Nat :=
  (acc.1 ++ [iterNode acc.2.2], acc.2.1 ++ [item], acc.2.2 + 1)

/-- `FromIterator<NodeData<T>> for Dom<T>`: seed the arena with a synthetic
`Div` root, push every item, then (when at least one item was pushed) clear
the overshooting `next_sibling` of the last item and point the root's
`first_child`/`last_child` at the first/last item. -/
def Dom.from_iter (items : List NodeData) : Dom NodeData :=
  let start : List Node × List NodeData × Nat :=
    ([nullNode], [NodeData.new .Div], 0)
  let acc := items.foldl fromIterStep start
  let node_layout0 := acc.1
  let node_data0 := acc.2.1
  let nodes_len := node_layout0.length
  let node_layout1 :=
    if 1 < nodes_len then
      modifyAt
        (modifyAt node_layout0 (nodes_len - 1)
          (fun n => { n with next_sibling := none }))
        0
        (fun n => { n with last_child := some (nodes_len - 1),
                           first_child := some 1 })
    else node_layout0
  { node_layout := node_layout1, node_data := node_data0, root := 0, head := 0 }

/-!
## `Dom::add_child` (dom.rs lines 997-1069)

The rewrite loop mutates three things: the donor arena topology (in place,
one node per iteration), the receiver arena topology (`next_sibling`
back-patches through the receiver head's `last_child`), and the
`last_sibling` accumulator.  A `none` result models a Rust panic: an
out-of-range index into the receiver arena, or the final
`last_sibling.unwrap()` failing because the donor has no root-level node
without a `next_sibling`.
-/

/-- The loop state of `Dom::add_child`. -/
structure MergeState where
  child_layout : List Node
  self_layout : List Node
  last_sibling : Option Nat
deriving DecidableEq, Repr

/-- Block 1 of the loop body (dom.rs lines 1028-1039), on the donor node
`node0` at id `i`: offset an existing `previous_sibling`; otherwise read the
receiver head's `last_child` and, when the node is root-level and that
`last_child` exists, link the node after it, back-patching that slot's
`next_sibling` in the receiver arena.  `none` is an out-of-range panic. -/
def mergeStep1 (self_len head i : Nat) (node0 : Node) (selfL : List Node) :
    Option (Node × List Node) :=
  match node0.previous_sibling with
  | some ps => some ({ node0 with previous_sibling := some (ps + self_len) }, selfL)
  | none =>
    if head < self_len then
      match (getN selfL head).last_child with
      | some c =>
        if node0.parent = none then
          if c < self_len then
            some ({ node0 with previous_sibling := some c },
              modifyAt selfL c (fun n => { n with next_sibling := some (i + self_len) }))
          else none
        else some (node0, selfL)
      | none => some (node0, selfL)
    else none

/-- Block 2 (dom.rs lines 1041-1050): offset an existing parent; otherwise
reparent the root-level node to the receiver head, recording it in
`last_sibling` when it has no next sibling. -/
def mergeStep2 (self_len head i : Nat) (node1 : Node) (lastSib : Option Nat) :
    Node × Option Nat :=
  match node1.parent with
  | some p => ({ node1 with parent := some (p + self_len) }, lastSib)
  | none =>
    ({ node1 with parent := some head },
     if node1.next_sibling = none then some i else lastSib)

/-- Blocks 3-5 (dom.rs lines 1052-1062): offset the remaining pointers. -/
def mergeStep3 (self_len : Nat) (node2 : Node) : Node :=
  { node2 with
    next_sibling := node2.next_sibling.map (fun x => x + self_len)
    first_child := node2.first_child.map (fun x => x + self_len)
    last_child := node2.last_child.map (fun x => x + self_len) }

/-- One iteration of the rewrite loop (dom.rs lines 1022-1063) on donor
node `i`: the four blocks in source order. -/
def mergeStep (self_len head : Nat) (i : Nat) (s : MergeState) : Option MergeState :=
  match mergeStep1 self_len head i (getN s.child_layout i) s.self_layout with
  | none => none
  | some (node1, self1) =>
    some { child_layout := s.child_layout.set i
             (mergeStep3 self_len (mergeStep2 self_len head i node1 s.last_sibling).1)
           self_layout := self1
           last_sibling := (mergeStep2 self_len head i node1 s.last_sibling).2 }

/-- Runs the rewrite loop over donor node ids `0, 1, ..., n - 1`. -/
def mergeLoop (self_len head : Nat) : Nat → MergeState → Option MergeState
  | 0, s => some s
  | n + 1, s =>
    match mergeLoop self_len head n s with
    | none => none
    | some s1 => mergeStep self_len head n s1

/-- `Dom::add_child` (dom.rs lines 997-1069): empty donor is a no-op, an
empty receiver is replaced wholesale by the donor, otherwise the rewrite
loop runs over every donor node, the receiver head's `first_child` is
defaulted and its `last_child` repointed, and the donor arena is appended.
The final `Arena::append_arena` lives in `id_tree` (not under `src/`) and
is modelled from the spec, section 4.1: it concatenates the donor's
topology and payload sequences onto the receiver's, without rewriting
indices. -/
def Dom.add_child {α : Type} (self child : Dom α) : Option (Dom α) :=
  if child.node_layout.length = 0 then some self
  else if self.node_layout.length = 0 then some child
  else
    match mergeLoop self.node_layout.length self.head child.node_layout.length
      { child_layout := child.node_layout
        self_layout := self.node_layout
        last_sibling := none } with
    | none => none
    | some s =>
      if self.head < self.node_layout.length then
        match s.last_sibling with
        | some ls =>
          some { node_layout :=
                   modifyAt s.self_layout self.head
                     (fun n => { n with
                       first_child := some (n.first_child.getD self.node_layout.length)
                       last_child := some (ls + self.node_layout.length) })
                   ++ s.child_layout
                 node_data := self.node_data ++ child.node_data
                 root := self.root
                 head := self.head }
        | none => none
      else none

/-- The per-donor-node rewrite as a pure function of the original node and
the receiver head's `last_child` (`hl`), which the loop never changes; used
to characterise the loop's effect on the donor arena. -/
def pureNode (self_len head : Nat) (hl : Option Nat) (nd : Node) : Node :=
  { parent :=
      match nd.parent with
      | some p => some (p + self_len)
      | none => some head
    previous_sibling :=
      match nd.previous_sibling with
      | some ps => some (ps + self_len)
      | none =>
        match hl, nd.parent with
        | some c, none => some c
        | _, _ => none
    next_sibling := nd.next_sibling.map (fun x => x + self_len)
    first_child := nd.first_child.map (fun x => x + self_len)
    last_child := nd.last_child.map (fun x => x + self_len) }

/-- The value of the `last_sibling` accumulator after the loop has processed
donor nodes `0 .. n-1` of the original donor arena `L`: the largest such
index whose node had no parent and no next sibling. -/
def lastSibAux (L : List Node) : Nat → Option Nat
  | 0 => none
  | n + 1 =>
    if (getN L n).parent = none ∧ (getN L n).next_sibling = none then some n
    else lastSibAux L n

/-!
## `Dom::into_ui_state` (dom.rs lines 1159-1404)

The classification traversal.  Modelled from the spec where it leans on the
`id_tree` module (not shown under `src/`): `Arena::linear_iter` visits every
arena slot exactly once, in index order `0 .. len-1` (spec section 4.4: one
deterministic traversal visiting every node; every property proved below is
insensitive to the visit order, only to each node being visited once).

`BTreeMap`s are modelled by their lookup functions (`Nat → Option ν`,
insert = pointwise update).  The per-node sub-maps collected by the
`filter_and_insert_callbacks!` macro are kept as the `filter_map`ped lists
themselves (the collected map is empty exactly when the list is, which is
all the control flow inspects).  The global `TAG_ID` counter is threaded
explicitly as `next_tag`; `new_tag_id()` returns the current value and
increments (`fetch_add`), and the build starts by resetting it to 1
(`TAG_ID.swap(1)`), so `next_tag` in the final state is the counter value
after the build.
-/

/-- `mem::replace`-free model of `BTreeMap::insert`: point update of the
lookup function. -/
def mapInsert {ν : Type} (m : Nat → Option ν) (k : Nat) (v : ν) :
    Nat → Option ν :=
  fun q => if q = k then some v else m q

/-- The hover projection of one callback list, as built by the macro's
`filter_map(|(event_filter, cb)| event_filter.as_hover_event_filter()
.map(|not_evt| (not_evt, *cb)))`. -/
def filterHover (src : List (EventFilter × Nat)) : List (HoverEventFilter × Nat) :=
  src.filterMap (fun p => (p.1.as_hover_event_filter).map (fun e => (e, p.2)))

/-- The focus projection of one callback list. -/
def filterFocus (src : List (EventFilter × Nat)) : List (FocusEventFilter × Nat) :=
  src.filterMap (fun p => (p.1.as_focus_event_filter).map (fun e => (e, p.2)))

/-- The not projection of one callback list. -/
def filterNot (src : List (EventFilter × Nat)) : List (NotEventFilter × Nat) :=
  src.filterMap (fun p => (p.1.as_not_event_filter).map (fun e => (e, p.2)))

/-- The window projection of one callback list. -/
def filterWindow (src : List (EventFilter × Nat)) : List (WindowEventFilter × Nat) :=
  src.filterMap (fun p => (p.1.as_window_event_filter).map (fun e => (e, p.2)))

/-- The desktop projection of one callback list. -/
def filterDesktop (src : List (EventFilter × Nat)) : List (DesktopEventFilter × Nat) :=
  src.filterMap (fun p => (p.1.as_desktop_event_filter).map (fun e => (e, p.2)))

/-- The lazy tag allocation state while one node is processed: the global
counter and the node's `node_tag_id`. -/
structure TagAlloc where
  next_tag : Nat
  node_tag_id : Option Nat
deriving DecidableEq, Repr

/-- The tagged variant of the `filter_and_insert_callbacks!` macro
(dom.rs lines 1215-1233): when the filtered sub-map is non-empty, record it
keyed by the node id and run
`node_tag_id.unwrap_or_else(new_tag_id)` — reuse the node's tag if one was
already allocated, otherwise take the next counter value. -/
def filterInsertTagged {β : Type} (i : Nat) (lst : List (β × Nat))
    (table : Nat → Option (List (β × Nat))) (ta : TagAlloc) :
    (Nat → Option (List (β × Nat))) × TagAlloc :=
  if lst.isEmpty then (table, ta)
  else
    (mapInsert table i lst,
     match ta.node_tag_id with
     | some t => ⟨ta.next_tag, some t⟩
     | none => ⟨ta.next_tag + 1, some ta.next_tag⟩)

/-- The untagged variant of the macro (dom.rs lines 1198-1214): record the
non-empty sub-map keyed by the node id, with no tag involved. -/
def filterInsertUntagged {β : Type} (i : Nat) (lst : List (β × Nat))
    (table : Nat → Option (List (β × Nat))) : Nat → Option (List (β × Nat)) :=
  if lst.isEmpty then table else mapInsert table i lst

/-- The result of one five-category macro expansion group over one data
source. -/
structure SourceResult where
  hovT : Nat → Option (List (HoverEventFilter × Nat))
  focT : Nat → Option (List (FocusEventFilter × Nat))
  notT : Nat → Option (List (NotEventFilter × Nat))
  winT : Nat → Option (List (WindowEventFilter × Nat))
  dskT : Nat → Option (List (DesktopEventFilter × Nat))
  ta : TagAlloc

/-- One group of five `filter_and_insert_callbacks!` expansions over one
data source, guarded by the source's non-emptiness exactly as in the code
(dom.rs lines 1251-1302 for `data.callbacks`, 1304-1355 for
`data.default_callback_ids`): hover, focus, not with lazy tag allocation in
that order, then window and desktop without. -/
def processSource (i : Nat) (src : List (EventFilter × Nat))
    (hovT : Nat → Option (List (HoverEventFilter × Nat)))
    (focT : Nat → Option (List (FocusEventFilter × Nat)))
    (notT : Nat → Option (List (NotEventFilter × Nat)))
    (winT : Nat → Option (List (WindowEventFilter × Nat)))
    (dskT : Nat → Option (List (DesktopEventFilter × Nat)))
    (ta : TagAlloc) : SourceResult :=
  if src.isEmpty then ⟨hovT, focT, notT, winT, dskT, ta⟩
  else
    let r1 := filterInsertTagged i (filterHover src) hovT ta
    let r2 := filterInsertTagged i (filterFocus src) focT r1.2
    let r3 := filterInsertTagged i (filterNot src) notT r2.2
    ⟨r1.1, r2.1, r3.1,
     filterInsertUntagged i (filterWindow src) winT,
     filterInsertUntagged i (filterDesktop src) dskT,
     r3.2⟩

/-- `UiState` (the dispatch-table bundle), with the tables that
`into_ui_state` fills, plus the value of the global `TAG_ID` counter after
the build (`next_tag`, the explicit model of the process-wide allocator). -/
structure UiState where
  next_tag : Nat
  tab_index_tags : Nat → Option (Nat × TabIndex)
  draggable_tags : Nat → Option Nat
  tag_ids_to_node_ids : Nat → Option Nat
  node_ids_to_tag_ids : Nat → Option Nat
  dynamic_css_overrides : Nat → Option (List (String × Nat))
  hover_callbacks : Nat → Option (List (HoverEventFilter × Nat))
  hover_default_callbacks : Nat → Option (List (HoverEventFilter × Nat))
  focus_callbacks : Nat → Option (List (FocusEventFilter × Nat))
  focus_default_callbacks : Nat → Option (List (FocusEventFilter × Nat))
  not_callbacks : Nat → Option (List (NotEventFilter × Nat))
  not_default_callbacks : Nat → Option (List (NotEventFilter × Nat))
  window_callbacks : Nat → Option (List (WindowEventFilter × Nat))
  window_default_callbacks : Nat → Option (List (WindowEventFilter × Nat))
  desktop_callbacks : Nat → Option (List (DesktopEventFilter × Nat))
  desktop_default_callbacks : Nat → Option (List (DesktopEventFilter × Nat))

/-- The body of the `for node_id in arena.linear_iter()` loop
(dom.rs lines 1244-1378) for node `i` with payload `d`: the five regular
expansions, the five default expansions, the draggable and tab-index steps
(each reusing or lazily allocating the node's tag), the tag↔node map
insertions when a tag was allocated, and the css-override recording. -/
def processNode (i : Nat) (d : NodeData) (s : UiState) : UiState :=
  let r := processSource i d.callbacks s.hover_callbacks s.focus_callbacks
      s.not_callbacks s.window_callbacks s.desktop_callbacks ⟨s.next_tag, none⟩
  let rD := processSource i d.default_callback_ids s.hover_default_callbacks
      s.focus_default_callbacks s.not_default_callbacks
      s.window_default_callbacks s.desktop_default_callbacks r.ta
  let dragRes : (Nat → Option Nat) × TagAlloc :=
    if d.draggable then
      match rD.ta.node_tag_id with
      | some t => (mapInsert s.draggable_tags t i, rD.ta)
      | none => (mapInsert s.draggable_tags rD.ta.next_tag i,
                 ⟨rD.ta.next_tag + 1, some rD.ta.next_tag⟩)
    else (s.draggable_tags, rD.ta)
  let tabRes : (Nat → Option (Nat × TabIndex)) × TagAlloc :=
    match d.tab_index with
    | some ti =>
      (match dragRes.2.node_tag_id with
       | some t => (mapInsert s.tab_index_tags t (i, ti), dragRes.2)
       | none => (mapInsert s.tab_index_tags dragRes.2.next_tag (i, ti),
                  ⟨dragRes.2.next_tag + 1, some dragRes.2.next_tag⟩))
    | none => (s.tab_index_tags, dragRes.2)
  { next_tag := tabRes.2.next_tag
    tab_index_tags := tabRes.1
    draggable_tags := dragRes.1
    tag_ids_to_node_ids :=
      match tabRes.2.node_tag_id with
      | some t => mapInsert s.tag_ids_to_node_ids t i
      | none => s.tag_ids_to_node_ids
    node_ids_to_tag_ids :=
      match tabRes.2.node_tag_id with
      | some t => mapInsert s.node_ids_to_tag_ids i t
      | none => s.node_ids_to_tag_ids
    dynamic_css_overrides :=
      if d.dynamic_css_overrides.isEmpty then s.dynamic_css_overrides
      else mapInsert s.dynamic_css_overrides i d.dynamic_css_overrides
    hover_callbacks := r.hovT
    focus_callbacks := r.focT
    not_callbacks := r.notT
    window_callbacks := r.winT
    desktop_callbacks := r.dskT
    hover_default_callbacks := rD.hovT
    focus_default_callbacks := rD.focT
    not_default_callbacks := rD.notT
    window_default_callbacks := rD.winT
    desktop_default_callbacks := rD.dskT }

/-- The state at the start of the build: every table empty and the global
tag counter freshly reset to 1 (`TAG_ID.swap(1, Ordering::SeqCst)`). -/
def initUiState : UiState :=
  { next_tag := 1
    tab_index_tags := fun _ => none
    draggable_tags := fun _ => none
    tag_ids_to_node_ids := fun _ => none
    node_ids_to_tag_ids := fun _ => none
    dynamic_css_overrides := fun _ => none
    hover_callbacks := fun _ => none
    hover_default_callbacks := fun _ => none
    focus_callbacks := fun _ => none
    focus_default_callbacks := fun _ => none
    not_callbacks := fun _ => none
    not_default_callbacks := fun _ => none
    window_callbacks := fun _ => none
    window_default_callbacks := fun _ => none
    desktop_callbacks := fun _ => none
    desktop_default_callbacks := fun _ => none }

/-- Runs the classification loop over nodes `0 .. n-1`. -/
def buildLoop (data : List NodeData) : Nat → UiState
  | 0 => initUiState
  | n + 1 => processNode n (data.getD n NodeData.default) (buildLoop data n)

/-- `Dom::into_ui_state`: reset the tag counter, then classify every node of
the arena in traversal order.  Modelled from the spec where the iteration
source is concerned: `Arena::linear_iter` lives in `id_tree` (not under
`src/`); it yields every arena slot exactly once, in index order, matching
the spec's single traversal of every node (section 4.4) — all properties
proved below depend only on each node being visited exactly once. -/
def Dom.into_ui_state (dom : Dom NodeData) : UiState :=
  buildLoop dom.node_data dom.node_data.length

/-- Whether an `EventFilter` belongs to one of the three hit-testable
categories (hover, focus, not); vocabulary of the claims, compared below
against what the code computes. -/
def isHitTestable : EventFilter → Bool
  | .Hover _ => true
  | .Focus _ => true
  | .Not _ => true
  | .Window _ => false
  | .Desktop _ => false

/-- Whether one data source contains at least one hit-testable entry, in the
form the code tests it: one of the three hit-testable projections is
non-empty. -/
def hitB (src : List (EventFilter × Nat)) : Bool :=
  !(filterHover src).isEmpty || !(filterFocus src).isEmpty || !(filterNot src).isEmpty

/-- Whether processing a node allocates a hit-test tag: a hit-testable
regular or default callback, the draggable flag, or a tab index. -/
def taggable (d : NodeData) : Bool :=
  hitB d.callbacks || hitB d.default_callback_ids || d.draggable || d.tab_index.isSome

/-- The number of taggable nodes among `0 .. n-1`; the tag allocated to a
taggable node `k` is `1 + tagCount data k`. -/
def tagCount (data : List NodeData) : Nat → Nat
  | 0 => 0
  | n + 1 => tagCount data n + (if taggable (data.getD n NodeData.default) then 1 else 0)

/-!
## Theorems
-/

/-- C6: the claim states that `HoverEventFilter::to_focus_event_filter` sends
`VirtualKeyUp` to `Some(FocusEventFilter::VirtualKeyUp)`.  The code instead
sends `VirtualKeyUp` to `Some(FocusEventFilter::VirtualKeyDown)` (dom.rs
line 520), so key-up events would be routed to key-down focus handlers and
`FocusEventFilter::VirtualKeyUp` is never produced by the conversion.  This
theorem evaluates the translated code at the failing input and records that
the produced value differs from the identically-named variant the claim
requires. -/
theorem c6_to_focus_event_filter_virtual_key_up_bug :
    HoverEventFilter.to_focus_event_filter HoverEventFilter.VirtualKeyUp
      = some FocusEventFilter.VirtualKeyDown ∧
    HoverEventFilter.to_focus_event_filter HoverEventFilter.VirtualKeyUp
      ≠ some FocusEventFilter.VirtualKeyUp := by
  refine ⟨rfl, ?_⟩
  decide

/-- C7: the claim states that `WindowEventFilter::to_hover_event_filter` sends
`VirtualKeyUp` to `Some(HoverEventFilter::VirtualKeyUp)`.  The code instead
sends `VirtualKeyUp` to `Some(HoverEventFilter::VirtualKeyDown)` (dom.rs
line 593), so key-up events would be routed to key-down hover handlers.
This theorem evaluates the translated code at the failing input and records
that the produced value differs from the identically-named variant the claim
requires. -/
theorem c7_to_hover_event_filter_virtual_key_up_bug :
    WindowEventFilter.to_hover_event_filter WindowEventFilter.VirtualKeyUp
      = some HoverEventFilter.VirtualKeyDown ∧
    WindowEventFilter.to_hover_event_filter WindowEventFilter.VirtualKeyUp
      ≠ some HoverEventFilter.VirtualKeyUp := by
  refine ⟨rfl, ?_⟩
  decide


theorem hashTok_str_injective : Function.Injective HashTok.str := by
  intro a b h
  cases h
  rfl

/-- C9: `calculate_node_data_hash` is a pure function of the payload fields
alone — two `NodeData` values that agree on `node_type`, `ids`, `classes`,
callback identities, `default_callback_ids`, `dynamic_css_overrides`,
`draggable` and `tab_index` hash equally (the function takes no other input,
so no node index, arena size or tag-allocator state can influence it); and
swapping two distinct adjacent strings anywhere in `ids`, all other fields
equal, changes the hash (the two hasher input streams differ). -/
theorem c9_calculate_node_data_hash_pure_and_order_sensitive :
    (∀ d₁ d₂ : NodeData,
      d₁.node_type = d₂.node_type → d₁.ids = d₂.ids → d₁.classes = d₂.classes →
      d₁.callbacks = d₂.callbacks →
      d₁.default_callback_ids = d₂.default_callback_ids →
      d₁.dynamic_css_overrides = d₂.dynamic_css_overrides →
      d₁.draggable = d₂.draggable → d₁.tab_index = d₂.tab_index →
      d₁.calculate_node_data_hash = d₂.calculate_node_data_hash) ∧
    (∀ (d₁ d₂ : NodeData) (xs ys : List String) (s₁ s₂ : String),
      s₁ ≠ s₂ →
      d₁.ids = xs ++ s₁ :: s₂ :: ys → d₂.ids = xs ++ s₂ :: s₁ :: ys →
      d₁.node_type = d₂.node_type → d₁.classes = d₂.classes →
      d₁.callbacks = d₂.callbacks →
      d₁.default_callback_ids = d₂.default_callback_ids →
      d₁.dynamic_css_overrides = d₂.dynamic_css_overrides →
      d₁.draggable = d₂.draggable → d₁.tab_index = d₂.tab_index →
      d₁.calculate_node_data_hash ≠ d₂.calculate_node_data_hash) := by
  constructor
  · intro d₁ d₂ h₁ h₂ h₃ h₄ h₅ h₆ h₇ h₈
    have : d₁ = d₂ := by
      cases d₁
      cases d₂
      simp_all
    rw [this]
  · intro d₁ d₂ xs ys s₁ s₂ hne hid₁ hid₂ h₁ h₃ h₄ h₅ h₆ h₇ h₈
    intro hcontra
    apply hne
    have hstream : d₁.hashStream = d₂.hashStream := congrArg DomHash.stream hcontra
    unfold NodeData.hashStream at hstream
    rw [h₁, h₃, h₄, h₅, h₆, h₇, h₈, hid₁, hid₂] at hstream
    have hmap : (xs ++ s₁ :: s₂ :: ys).map HashTok.str
        = (xs ++ s₂ :: s₁ :: ys).map HashTok.str := by
      have h₀ := hstream
      simp only [List.append_assoc] at h₀
      have h₁' := List.append_cancel_left h₀
      have hlen : ((xs ++ s₁ :: s₂ :: ys).map HashTok.str).length
          = ((xs ++ s₂ :: s₁ :: ys).map HashTok.str).length := by
        simp
      exact List.append_inj_left h₁' (by simp)
    have hids : xs ++ s₁ :: s₂ :: ys = xs ++ s₂ :: s₁ :: ys :=
      List.map_injective_iff.mpr hashTok_str_injective hmap
    have := List.append_cancel_left hids
    simp only [List.cons.injEq] at this
    exact this.1

/-- C10: because the `Hash for NodeData<T>` impl iterates `ids` and then
`classes` with no separator between the two sequences, moving a string from
the tail of `ids` to the head of `classes` leaves the hasher input stream —
and hence the structural hash — unchanged. -/
theorem c10_hash_ids_classes_boundary_slide :
    ∀ (d₁ d₂ : NodeData) (xs cs : List String) (s : String),
      d₁.ids = xs ++ [s] → d₁.classes = cs →
      d₂.ids = xs → d₂.classes = s :: cs →
      d₁.node_type = d₂.node_type →
      d₁.callbacks = d₂.callbacks →
      d₁.default_callback_ids = d₂.default_callback_ids →
      d₁.dynamic_css_overrides = d₂.dynamic_css_overrides →
      d₁.draggable = d₂.draggable → d₁.tab_index = d₂.tab_index →
      d₁.calculate_node_data_hash = d₂.calculate_node_data_hash := by
  intro d₁ d₂ xs cs s hid₁ hcl₁ hid₂ hcl₂ h₁ h₄ h₅ h₆ h₇ h₈
  unfold NodeData.calculate_node_data_hash NodeData.hashStream
  rw [h₁, h₄, h₅, h₆, h₇, h₈, hid₁, hcl₁, hid₂, hcl₂]
  simp [List.append_assoc]

/-- Witness for C9 at a concrete input: two single-id div payloads with the
ids `"a"`, `"b"` in the two orders hash differently. -/
theorem c9_witness :
    ({ NodeData.default with ids := ["a", "b"] } : NodeData).calculate_node_data_hash
      ≠ ({ NodeData.default with ids := ["b", "a"] } : NodeData).calculate_node_data_hash :=
  c9_calculate_node_data_hash_pure_and_order_sensitive.2
    { NodeData.default with ids := ["a", "b"] }
    { NodeData.default with ids := ["b", "a"] }
    [] [] "a" "b" (by decide) rfl rfl rfl rfl rfl rfl rfl rfl rfl

/-- Witness for C10 at a concrete input: moving `"x"` from the tail of `ids`
to the head of `classes` preserves the hash. -/
theorem c10_witness :
    ({ NodeData.default with ids := ["a", "x"], classes := ["c"] } : NodeData).calculate_node_data_hash
      = ({ NodeData.default with ids := ["a"], classes := ["x", "c"] } : NodeData).calculate_node_data_hash :=
  c10_hash_ids_classes_boundary_slide
    { NodeData.default with ids := ["a", "x"], classes := ["c"] }
    { NodeData.default with ids := ["a"], classes := ["x", "c"] }
    ["a"] ["c"] "x" rfl rfl rfl rfl rfl rfl rfl rfl rfl rfl


theorem length_modifyAt {α : Type} (l : List α) (i : Nat) (f : α → α) :
    (modifyAt l i f).length = l.length := by
  induction l generalizing i with
  | nil => rfl
  | cons a t ih =>
    cases i with
    | zero => rfl
    | succ j => simp [modifyAt, ih]

theorem getD_modifyAt_same {α : Type} (l : List α) (i : Nat) (f : α → α)
    (d : α) (h : i < l.length) :
    (modifyAt l i f).getD i d = f (l.getD i d) := by
  induction l generalizing i with
  | nil => simp at h
  | cons a t ih =>
    cases i with
    | zero => rfl
    | succ j =>
      simp only [modifyAt, List.getD_cons_succ]
      exact ih j (by simpa using h)

theorem getD_modifyAt_ne {α : Type} (l : List α) (i j : Nat) (f : α → α)
    (d : α) (h : j ≠ i) :
    (modifyAt l i f).getD j d = l.getD j d := by
  induction l generalizing i j with
  | nil => rfl
  | cons a t ih =>
    cases i with
    | zero =>
      cases j with
      | zero => exact absurd rfl h
      | succ j' => rfl
    | succ i' =>
      cases j with
      | zero => rfl
      | succ j' =>
        simp only [modifyAt, List.getD_cons_succ]
        exact ih i' j' (fun hc => h (by rw [hc]))

theorem range_map_shift {α : Type} (f : Nat → α) (k n : Nat) :
    (List.range (n + 1)).map (fun j => f (k + j))
      = f k :: (List.range n).map (fun j => f (k + 1 + j)) := by
  rw [List.range_succ_eq_map, List.map_cons, List.map_map]
  refine congrArg₂ List.cons (by simp) ?_
  apply List.map_congr_left
  intro j hj
  show f (k + (j + 1)) = f (k + 1 + j)
  congr 1
  omega

theorem foldl_fromIterStep (items : List NodeData) :
    ∀ (nl : List Node) (nd : List NodeData) (k : Nat),
      items.foldl fromIterStep (nl, nd, k)
        = (nl ++ (List.range items.length).map (fun j => iterNode (k + j)),
           nd ++ items, k + items.length) := by
  induction items with
  | nil => intro nl nd k; simp
  | cons a t ih =>
    intro nl nd k
    have step : fromIterStep (nl, nd, k) a = (nl ++ [iterNode k], nd ++ [a], k + 1) := rfl
    rw [List.foldl_cons, step, ih]
    refine Prod.ext ?_ (Prod.ext ?_ ?_)
    · show nl ++ [iterNode k] ++ (List.range t.length).map (fun j => iterNode (k + 1 + j))
        = nl ++ (List.range (a :: t).length).map (fun j => iterNode (k + j))
      rw [List.append_assoc]
      congr 1
      show iterNode k :: (List.range t.length).map (fun j => iterNode (k + 1 + j))
        = (List.range (t.length + 1)).map (fun j => iterNode (k + j))
      rw [range_map_shift]
    · simp
    · show k + 1 + t.length = k + (t.length + 1)
      omega

theorem getN_fromIter_base (items : List NodeData) (i : Nat) :
    getN (items.foldl fromIterStep ([nullNode], [NodeData.new .Div], 0)).1 i
      = if i = 0 then nullNode
        else if i < items.length + 1 then iterNode (i - 1) else nullNode := by
  rw [foldl_fromIterStep]
  cases i with
  | zero => rfl
  | succ j =>
    simp only [Nat.succ_ne_zero, if_false]
    show getN (nullNode :: (List.range items.length).map (fun j => iterNode (0 + j))) (j + 1) = _
    simp only [getN, List.getD_cons_succ]
    by_cases h : j < items.length
    · rw [if_pos (by omega)]
      rw [List.getD_eq_getElem?_getD, List.getElem?_map, List.getElem?_range h]
      simp
    · rw [if_neg (by omega)]
      apply List.getD_eq_default
      simp only [List.length_map, List.length_range]
      omega

/-- C8: collecting a sequence of `N` node payloads into a `Dom`
(`FromIterator<NodeData<T>> for Dom<T>`): for `N = 0` the result is exactly
one bare `Div` root at index 0 with `root = head = 0` and all five topology
pointers `None`; for `N ≥ 1` the result has `N + 1` nodes, the root's
`first_child` is `Some 1` and `last_child` is `Some N`, and the item at
index `i` (`1 ≤ i ≤ N`) has `parent = Some 0`,
`previous_sibling = Some (i-1)` except `None` at `i = 1`,
`next_sibling = Some (i+1)` except `None` at `i = N`, and no children —
a single doubly-linked sibling chain holding the items in input order. -/
theorem c8_from_iter_builds_sibling_chain (items : List NodeData) :
    (items.length = 0 →
      (Dom.from_iter items).len = 1 ∧
      (Dom.from_iter items).root = 0 ∧
      (Dom.from_iter items).head = 0 ∧
      getN (Dom.from_iter items).node_layout 0 = nullNode ∧
      (Dom.from_iter items).node_data = [NodeData.new .Div]) ∧
    (1 ≤ items.length →
      (Dom.from_iter items).len = items.length + 1 ∧
      (Dom.from_iter items).root = 0 ∧
      (Dom.from_iter items).head = 0 ∧
      (Dom.from_iter items).node_data = NodeData.new .Div :: items ∧
      (getN (Dom.from_iter items).node_layout 0).parent = none ∧
      (getN (Dom.from_iter items).node_layout 0).previous_sibling = none ∧
      (getN (Dom.from_iter items).node_layout 0).next_sibling = none ∧
      (getN (Dom.from_iter items).node_layout 0).first_child = some 1 ∧
      (getN (Dom.from_iter items).node_layout 0).last_child = some items.length ∧
      (∀ i, 1 ≤ i → i ≤ items.length →
        getN (Dom.from_iter items).node_layout i
          = { parent := some 0
              previous_sibling := if i = 1 then none else some (i - 1)
              next_sibling := if i = items.length then none else some (i + 1)
              first_child := none
              last_child := none })) := by
  have hacc := foldl_fromIterStep items [nullNode] [NodeData.new .Div] 0
  have hlen0 : (items.foldl fromIterStep ([nullNode], [NodeData.new .Div], 0)).1.length
      = items.length + 1 := by
    rw [hacc]; simp [Nat.add_comm]
  constructor
  · intro h0
    have hempty : items = [] := List.length_eq_zero.mp h0
    subst hempty
    refine ⟨rfl, rfl, rfl, rfl, rfl⟩
  · intro h1
    set N := items.length with hN
    have hgt : 1 < N + 1 := by omega
    have hfe : Dom.from_iter items
        = { node_layout :=
              modifyAt
                (modifyAt (items.foldl fromIterStep ([nullNode], [NodeData.new .Div], 0)).1
                  N (fun n => { n with next_sibling := none }))
                0 (fun n => { n with last_child := some N, first_child := some 1 }),
            node_data := (items.foldl fromIterStep ([nullNode], [NodeData.new .Div], 0)).2.1,
            root := 0, head := 0 } := by
      unfold Dom.from_iter
      simp only [hlen0]
      rw [if_pos hgt]
      simp
    have hdata : (items.foldl fromIterStep ([nullNode], [NodeData.new .Div], 0)).2.1
        = NodeData.new .Div :: items := by
      rw [hacc]
      rfl
    have hlen1 : (modifyAt (items.foldl fromIterStep ([nullNode], [NodeData.new .Div], 0)).1
        N (fun n => { n with next_sibling := none })).length = N + 1 := by
      rw [length_modifyAt, hlen0]
    have hroot : getN (Dom.from_iter items).node_layout 0
        = { parent := none, previous_sibling := none, next_sibling := none,
            first_child := some 1, last_child := some N } := by
      rw [hfe]
      show (modifyAt _ 0 _).getD 0 nullNode = _
      rw [getD_modifyAt_same _ _ _ _ (by rw [hlen1]; omega)]
      have : (modifyAt (items.foldl fromIterStep ([nullNode], [NodeData.new .Div], 0)).1
          N (fun n => { n with next_sibling := none })).getD 0 nullNode = nullNode := by
        rw [getD_modifyAt_ne _ _ _ _ _ (by omega)]
        have := getN_fromIter_base items 0
        simpa [getN] using this
      rw [this]
      rfl
    refine ⟨?_, rfl, rfl, ?_, ?_, ?_, ?_, ?_, ?_, ?_⟩
    · show (Dom.from_iter items).node_layout.length = N + 1
      rw [hfe]
      show (modifyAt _ 0 _).length = N + 1
      rw [length_modifyAt, hlen1]
    · rw [hfe]; exact hdata
    · rw [hroot]
    · rw [hroot]
    · rw [hroot]
    · rw [hroot]
    · rw [hroot]
    · intro i hi1 hiN
      rw [hfe]
      show (modifyAt _ 0 _).getD i nullNode = _
      rw [getD_modifyAt_ne _ _ _ _ _ (by omega)]
      have hb := getN_fromIter_base items i
      rw [if_neg (by omega), if_pos (by omega)] at hb
      simp only [getN] at hb
      by_cases hiN' : i = N
      · rw [hiN']
        rw [getD_modifyAt_same _ _ _ _ (by rw [hlen0]; omega)]
        rw [show (List.foldl fromIterStep ([nullNode], [NodeData.new NodeType.Div], 0) items).1.getD
              N nullNode = iterNode (N - 1) from hiN' ▸ hb]
        simp only [iterNode]
        by_cases h1' : N = 1
        · rw [h1']
          simp
        · rw [if_neg (show ¬(N - 1 = 0) by omega), if_neg h1']
          simp
      · rw [getD_modifyAt_ne _ _ _ _ _ (by omega)]
        rw [hb]
        simp only [iterNode]
        rw [if_neg hiN', show i - 1 + 2 = i + 1 from by omega]
        by_cases h1' : i = 1
        · rw [h1']
          simp
        · rw [if_neg (show ¬(i - 1 = 0) by omega), if_neg h1']

/-- Witness for C8 at a concrete input: two payload items yield the
three-node chain the theorem describes. -/
theorem c8_witness :
    (Dom.from_iter [NodeData.default, NodeData.default]).len = 3 ∧
    (getN (Dom.from_iter [NodeData.default, NodeData.default]).node_layout 0).first_child
      = some 1 ∧
    getN (Dom.from_iter [NodeData.default, NodeData.default]).node_layout 2
      = { parent := some 0, previous_sibling := some 1, next_sibling := none
          first_child := none, last_child := none } := by
  have h := (c8_from_iter_builds_sibling_chain [NodeData.default, NodeData.default]).2
    (by decide)
  obtain ⟨hl, -, -, -, -, -, -, hfc, -, hnode⟩ := h
  refine ⟨hl, hfc, ?_⟩
  have := hnode 2 (by decide) (by decide)
  simpa using this

theorem modifyAt_oob {α : Type} (l : List α) (i : Nat) (f : α → α)
    (h : l.length ≤ i) : modifyAt l i f = l := by
  induction l generalizing i with
  | nil => rfl
  | cons a t ih =>
    cases i with
    | zero => simp at h
    | succ j =>
      simp only [modifyAt, List.cons.injEq, true_and]
      exact ih j (by simpa using h)

theorem set_eq_modifyAt {α : Type} (l : List α) (i : Nat) (a : α) :
    l.set i a = modifyAt l i (fun _ => a) := by
  induction l generalizing i with
  | nil => rfl
  | cons b t ih =>
    cases i with
    | zero => rfl
    | succ j => simp [modifyAt, List.set, ih]

theorem getN_append_left (l l' : List Node) (n : Nat) (h : n < l.length) :
    getN (l ++ l') n = getN l n := by
  unfold getN
  rw [List.getD_eq_getElem?_getD, List.getD_eq_getElem?_getD, List.getElem?_append,
    if_pos h]

theorem getN_append_right (l l' : List Node) (n : Nat) (h : l.length ≤ n) :
    getN (l ++ l') n = getN l' (n - l.length) := by
  unfold getN
  rw [List.getD_eq_getElem?_getD, List.getD_eq_getElem?_getD,
    List.getElem?_append_right h]

theorem getN_modifyAt_same (l : List Node) (i : Nat) (f : Node → Node)
    (h : i < l.length) : getN (modifyAt l i f) i = f (getN l i) :=
  getD_modifyAt_same l i f nullNode h

theorem getN_modifyAt_ne (l : List Node) (i j : Nat) (f : Node → Node)
    (h : j ≠ i) : getN (modifyAt l i f) j = getN l j :=
  getD_modifyAt_ne l i j f nullNode h

/-- A `modifyAt` that only rewrites a node's `next_sibling` leaves every
other field of every slot unchanged. -/
theorem getN_modifyAt_ns_fields (l : List Node) (c : Nat) (v : Option Nat)
    (x : Nat) :
    (getN (modifyAt l c (fun n => { n with next_sibling := v })) x).parent
        = (getN l x).parent ∧
    (getN (modifyAt l c (fun n => { n with next_sibling := v })) x).previous_sibling
        = (getN l x).previous_sibling ∧
    (getN (modifyAt l c (fun n => { n with next_sibling := v })) x).first_child
        = (getN l x).first_child ∧
    (getN (modifyAt l c (fun n => { n with next_sibling := v })) x).last_child
        = (getN l x).last_child := by
  by_cases hx : x = c
  · subst hx
    by_cases hlt : x < l.length
    · rw [getN_modifyAt_same l x _ hlt]
      exact ⟨rfl, rfl, rfl, rfl⟩
    · rw [modifyAt_oob l x _ (by omega)]
      exact ⟨rfl, rfl, rfl, rfl⟩
  · rw [getN_modifyAt_ne l c x _ hx]
    exact ⟨rfl, rfl, rfl, rfl⟩

/-- Characterisation of one successful loop iteration: the donor node `i`
is replaced by its pure rewrite (relative to the receiver head's current
`last_child`), `last_sibling` records `i` exactly when donor node `i` is a
root-level node without a next sibling, and the receiver arena keeps its
length and its head's `last_child`; moreover the receiver arena is written
only by a root-level donor node without a previous sibling, and then exactly
at the head's `last_child` slot. -/
theorem mergeStep2_fst (sl h i : Nat) (n1 : Node) (ls : Option Nat) :
    (mergeStep2 sl h i n1 ls).1
      = { n1 with parent := match n1.parent with
                            | some p => some (p + sl)
                            | none => some h } := by
  unfold mergeStep2
  cases n1.parent <;> rfl

theorem mergeStep2_snd (sl h i : Nat) (n1 : Node) (ls : Option Nat) :
    (mergeStep2 sl h i n1 ls).2
      = (if n1.parent = none ∧ n1.next_sibling = none then some i else ls) := by
  unfold mergeStep2
  cases hp : n1.parent with
  | some p => simp [hp]
  | none =>
    cases hn : n1.next_sibling with
    | some q => simp [hn]
    | none => simp [hn]

theorem mergeStep_some {sl h i : Nat} {s s' : MergeState}
    (hstep : mergeStep sl h i s = some s') :
    s'.child_layout = s.child_layout.set i
        (pureNode sl h (getN s.self_layout h).last_child (getN s.child_layout i)) ∧
    s'.last_sibling = (if (getN s.child_layout i).parent = none ∧
        (getN s.child_layout i).next_sibling = none then some i else s.last_sibling) ∧
    s'.self_layout.length = s.self_layout.length ∧
    (getN s'.self_layout h).last_child = (getN s.self_layout h).last_child ∧
    ((getN s.child_layout i).parent ≠ none → s'.self_layout = s.self_layout) ∧
    (∀ ps, (getN s.child_layout i).previous_sibling = some ps →
      s'.self_layout = s.self_layout) ∧
    ((getN s.child_layout i).parent = none →
      (getN s.child_layout i).previous_sibling = none →
      h < sl ∧
      (∀ c, (getN s.self_layout h).last_child = some c → c < sl) ∧
      s'.self_layout = (match (getN s.self_layout h).last_child with
        | some c => modifyAt s.self_layout c
            (fun n => { n with next_sibling := some (i + sl) })
        | none => s.self_layout)) := by
  unfold mergeStep at hstep
  cases h1 : mergeStep1 sl h i (getN s.child_layout i) s.self_layout with
  | none => rw [h1] at hstep; cases hstep
  | some pr =>
    obtain ⟨node1, self1⟩ := pr
    rw [h1] at hstep
    simp only [Option.some.injEq] at hstep
    subst hstep
    unfold mergeStep1 at h1
    split at h1
    · rename_i ps hprev
      simp only [Option.some.injEq, Prod.mk.injEq] at h1
      obtain ⟨hn1, hs1⟩ := h1
      subst hs1
      refine ⟨?_, ?_, rfl, rfl, fun _ => rfl, fun _ _ => rfl,
        fun _ hc => by simp [hprev] at hc⟩
      · rw [mergeStep2_fst, ← hn1]
        cases hpar : (getN s.child_layout i).parent <;>
          simp [mergeStep3, pureNode, hprev, hpar]
      · rw [mergeStep2_snd, ← hn1]
    · rename_i hprev
      split at h1
      · rename_i hh
        split at h1
        · rename_i c hl
          split at h1
          · rename_i hpar
            split at h1
            · rename_i hc
              simp only [Option.some.injEq, Prod.mk.injEq] at h1
              obtain ⟨hn1, hs1⟩ := h1
              subst hs1
              refine ⟨?_, ?_, length_modifyAt _ _ _,
                (getN_modifyAt_ns_fields s.self_layout c _ h).2.2.2,
                fun hcon => absurd hpar hcon,
                fun ps hps => by simp [hprev] at hps,
                fun _ _ => ⟨hh, fun c' hc' => by simp [hl] at hc'; omega,
                  rfl⟩⟩
              · rw [mergeStep2_fst, ← hn1]
                simp [mergeStep3, pureNode, hprev, hpar, hl]
              · rw [mergeStep2_snd, ← hn1]
            · cases h1
          · rename_i hpar
            simp only [Option.some.injEq, Prod.mk.injEq] at h1
            obtain ⟨hn1, hs1⟩ := h1
            subst hs1
            have hpar' : ∃ p, (getN s.child_layout i).parent = some p := by
              cases hx : (getN s.child_layout i).parent with
              | some p => exact ⟨p, rfl⟩
              | none => exact absurd hx hpar
            obtain ⟨p, hp⟩ := hpar'
            refine ⟨?_, ?_, rfl, rfl, fun _ => rfl, fun _ _ => rfl,
              fun hc => absurd hc hpar⟩
            · rw [mergeStep2_fst, ← hn1]
              simp [mergeStep3, pureNode, hprev, hp, hl]
            · rw [mergeStep2_snd, ← hn1]
        · rename_i hl
          simp only [Option.some.injEq, Prod.mk.injEq] at h1
          obtain ⟨hn1, hs1⟩ := h1
          subst hs1
          refine ⟨?_, ?_, rfl, rfl, fun _ => rfl, fun _ _ => rfl,
            fun _ _ => ⟨hh, fun c' hc' => by simp [hl] at hc',
              rfl⟩⟩
          · rw [mergeStep2_fst, ← hn1]
            cases hpar : (getN s.child_layout i).parent <;>
              simp [mergeStep3, pureNode, hprev, hpar, hl]
          · rw [mergeStep2_snd, ← hn1]
      · cases h1

theorem getN_set_self (l : List Node) (i : Nat) (a : Node) (h : i < l.length) :
    getN (l.set i a) i = a := by
  rw [set_eq_modifyAt, getN_modifyAt_same l i _ h]

theorem getN_set_ne (l : List Node) (i j : Nat) (a : Node) (h : j ≠ i) :
    getN (l.set i a) j = getN l j := by
  rw [set_eq_modifyAt, getN_modifyAt_ne l i j _ h]

/-- Loop invariant of `mergeLoop`: after processing donor nodes `0 .. n-1`,
both arenas keep their lengths, the receiver head's `last_child` is
unchanged, `last_sibling` is as computed by `lastSibAux`, donor nodes at or
beyond `n` are untouched, and every processed donor node carries its pure
rewrite. -/
theorem mergeLoop_invariant {sl h : Nat} {orig self0 : List Node} :
    ∀ n s, n ≤ orig.length →
      mergeLoop sl h n
        { child_layout := orig, self_layout := self0, last_sibling := none } = some s →
      s.child_layout.length = orig.length ∧
      s.self_layout.length = self0.length ∧
      (getN s.self_layout h).last_child = (getN self0 h).last_child ∧
      s.last_sibling = lastSibAux orig n ∧
      (∀ j, n ≤ j → getN s.child_layout j = getN orig j) ∧
      (∀ j, j < n → getN s.child_layout j
          = pureNode sl h (getN self0 h).last_child (getN orig j)) := by
  intro n
  induction n with
  | zero =>
    intro s _ hs
    simp only [mergeLoop, Option.some.injEq] at hs
    subst hs
    exact ⟨rfl, rfl, rfl, rfl, fun j _ => rfl, fun j hj => absurd hj (by omega)⟩
  | succ n ih =>
    intro s hn hs
    simp only [mergeLoop] at hs
    cases hmid : mergeLoop sl h n
        { child_layout := orig, self_layout := self0, last_sibling := none } with
    | none => rw [hmid] at hs; cases hs
    | some s1 =>
      rw [hmid] at hs
      obtain ⟨ih1, ih2, ih3, ih4, ih5, ih6⟩ := ih s1 (by omega) hmid
      obtain ⟨st1, st2, st3, st4, -, -, -⟩ := mergeStep_some hs
      have hchn : getN s1.child_layout n = getN orig n := ih5 n (le_refl n)
      have hln : n < s1.child_layout.length := by rw [ih1]; omega
      refine ⟨?_, ?_, ?_, ?_, ?_, ?_⟩
      · rw [st1, List.length_set, ih1]
      · rw [st3, ih2]
      · rw [st4, ih3]
      · rw [st2, ih4, hchn]
        rfl
      · intro j hj
        rw [st1, getN_set_ne _ _ _ _ (by omega), ih5 j (by omega)]
      · intro j hj
        by_cases hjn : j = n
        · subst hjn
          rw [st1, getN_set_self _ _ _ hln, hchn, ih3]
        · rw [st1, getN_set_ne _ _ _ _ hjn, ih6 j (by omega)]

/-- For a donor whose only root-level node is node `0` and whose node `0`
has no next sibling, the `last_sibling` accumulator ends as `some 0`. -/
theorem lastSibAux_single_root {orig : List Node}
    (h0p : (getN orig 0).parent = none) (h0n : (getN orig 0).next_sibling = none)
    (hothers : ∀ k, k < orig.length → 1 ≤ k → (getN orig k).parent ≠ none) :
    ∀ n, 1 ≤ n → n ≤ orig.length → lastSibAux orig n = some 0 := by
  intro n
  induction n with
  | zero => intro h; omega
  | succ n ih =>
    intro _ hle
    by_cases hn0 : n = 0
    · subst hn0
      unfold lastSibAux
      rw [if_pos ⟨h0p, h0n⟩]
    · unfold lastSibAux
      rw [if_neg (fun hc => hothers n (by omega) (by omega) hc.1)]
      exact ih (by omega) (by omega)

/-- For a donor with a single root-level node at index `0` (every other node
has a parent), the only receiver-arena write the loop performs is the
iteration-0 back-patch through the receiver head's `last_child`. -/
theorem mergeLoop_self_single_root {sl h : Nat} {orig self0 : List Node}
    (h0p : (getN orig 0).parent = none)
    (h0prev : (getN orig 0).previous_sibling = none)
    (hothers : ∀ k, k < orig.length → 1 ≤ k → (getN orig k).parent ≠ none) :
    ∀ n s, 1 ≤ n → n ≤ orig.length →
      mergeLoop sl h n
        { child_layout := orig, self_layout := self0, last_sibling := none } = some s →
      h < sl ∧
      (∀ c, (getN self0 h).last_child = some c → c < sl) ∧
      s.self_layout = (match (getN self0 h).last_child with
        | some c => modifyAt self0 c
            (fun nd => { nd with next_sibling := some (0 + sl) })
        | none => self0) := by
  intro n
  induction n with
  | zero => intro s h1; omega
  | succ n ih =>
    intro s hge hle hs
    simp only [mergeLoop] at hs
    cases hmid : mergeLoop sl h n
        { child_layout := orig, self_layout := self0, last_sibling := none } with
    | none => rw [hmid] at hs; cases hs
    | some s1 =>
      rw [hmid] at hs
      by_cases hn0 : n = 0
      · subst hn0
        simp only [mergeLoop, Option.some.injEq] at hmid
        subst hmid
        obtain ⟨-, -, -, -, -, -, st7⟩ := mergeStep_some hs
        exact st7 h0p h0prev
      · obtain ⟨ha, hb, hc⟩ := ih s1 (by omega) (by omega) hmid
        obtain ⟨-, -, -, -, st5, -, -⟩ := mergeStep_some hs
        obtain ⟨-, -, -, -, ih5, -⟩ := mergeLoop_invariant n s1 (by omega) hmid
        have huntouched : getN s1.child_layout n = getN orig n := ih5 n (le_refl n)
        have hpar : (getN s1.child_layout n).parent ≠ none := by
          rw [huntouched]
          exact hothers n (by omega) (by omega)
        refine ⟨ha, hb, ?_⟩
        rw [st5 hpar]
        exact hc

/-- Elimination form of a successful non-trivial `add_child`: the loop ran to
completion, the receiver head is in range, `last_sibling` resolved, and the
result is the back-patched receiver arena followed by the rewritten donor
arena. -/
theorem add_child_some_elim {α : Type} {A B A' : Dom α}
    (hB : B.len ≠ 0) (hA : A.len ≠ 0) (hs : A.add_child B = some A') :
    ∃ s ls,
      mergeLoop A.len A.head B.len
        { child_layout := B.node_layout, self_layout := A.node_layout,
          last_sibling := none } = some s ∧
      A.head < A.len ∧ s.last_sibling = some ls ∧
      A' = { node_layout :=
               modifyAt s.self_layout A.head
                 (fun n => { n with
                   first_child := some (n.first_child.getD A.len)
                   last_child := some (ls + A.len) }) ++ s.child_layout
             node_data := A.node_data ++ B.node_data
             root := A.root
             head := A.head } := by
  unfold Dom.add_child at hs
  have hB' : ¬(B.node_layout.length = 0) := hB
  have hA' : ¬(A.node_layout.length = 0) := hA
  rw [if_neg hB', if_neg hA'] at hs
  split at hs
  · cases hs
  · rename_i s hm
    split at hs
    · rename_i hh
      split at hs
      · rename_i ls hls
        simp only [Option.some.injEq] at hs
        exact ⟨s, ls, hm, hh, hls, hs.symm⟩
      · cases hs
    · cases hs

/-- C3: a successful `add_child` grows the receiver arena by exactly the
donor's length — `len(A') = len(A) + len(B)` for a non-empty receiver,
`len(A') = len(B)` for an empty receiver (wholesale replacement) — and an
empty donor is a complete no-op, leaving arena, root and head unchanged. -/
theorem c3_add_child_length {α : Type} (A B A' : Dom α)
    (hs : A.add_child B = some A') :
    (A.len ≠ 0 → A'.len = A.len + B.len) ∧
    (A.len = 0 → A'.len = B.len) ∧
    (B.len = 0 → A' = A) := by
  by_cases hB : B.len = 0
  · have hAA : A' = A := by
      unfold Dom.add_child at hs
      have hB'' : B.node_layout.length = 0 := hB
      rw [if_pos hB''] at hs
      exact (Option.some.inj hs).symm
    subst hAA
    have hBlen : B.len = 0 := hB
    exact ⟨fun _ => by omega, fun h0 => by omega, fun _ => rfl⟩
  · by_cases hA : A.len = 0
    · have hAB : A' = B := by
        unfold Dom.add_child at hs
        have hB'' : ¬(B.node_layout.length = 0) := hB
        have hA'' : A.node_layout.length = 0 := hA
        rw [if_neg hB'', if_pos hA''] at hs
        exact (Option.some.inj hs).symm
      subst hAB
      exact ⟨fun hc => absurd hA hc, fun _ => rfl, fun hc => absurd hc hB⟩
    · obtain ⟨s, ls, hm, hh, hls, hA'⟩ := add_child_some_elim hB hA hs
      obtain ⟨i1, i2, -, -, -, -⟩ := mergeLoop_invariant B.len s (Nat.le_refl _) hm
      have hlen : A'.len = A.len + B.len := by
        simp only [Dom.len, hA', List.length_append, length_modifyAt, i1, i2]
      exact ⟨fun _ => hlen, fun h0 => absurd h0 hA, fun hc => absurd hc hB⟩

/-- C1: after a successful `A.add_child B` with both documents non-empty,
every donor node `d` that had a parent `p` lands at index `d + offset`
(`offset = len(A)`) with `parent = some (p + offset)`, and each of its
`previous_sibling`, `next_sibling`, `first_child`, `last_child` is the old
value plus `offset` when it was `some`, and stays `none` when it was
`none`. -/
theorem c1_add_child_offsets_donor_internal_links {α : Type} (A B A' : Dom α)
    (hA : A.len ≠ 0) (hB : B.len ≠ 0) (hs : A.add_child B = some A')
    (d p : Nat) (hd : d < B.len)
    (hp : (getN B.node_layout d).parent = some p) :
    getN A'.node_layout (d + A.len) =
      { parent := some (p + A.len)
        previous_sibling := (getN B.node_layout d).previous_sibling.map (fun x => x + A.len)
        next_sibling := (getN B.node_layout d).next_sibling.map (fun x => x + A.len)
        first_child := (getN B.node_layout d).first_child.map (fun x => x + A.len)
        last_child := (getN B.node_layout d).last_child.map (fun x => x + A.len) } := by
  obtain ⟨s, ls, hm, hh, hls, hA'⟩ := add_child_some_elim hB hA hs
  obtain ⟨i1, i2, -, -, -, i6⟩ := mergeLoop_invariant B.len s (Nat.le_refl _) hm
  have hAlen : A.len = A.node_layout.length := rfl
  rw [hA']
  show getN (_ ++ s.child_layout) (d + A.len) = _
  rw [getN_append_right _ _ _ (by rw [length_modifyAt, i2, ← hAlen]; omega)]
  rw [show d + A.len - (modifyAt s.self_layout A.head
      (fun n => { n with
        first_child := some (n.first_child.getD A.len)
        last_child := some (ls + A.len) })).length = d by
    rw [length_modifyAt, i2, ← hAlen]; omega]
  rw [i6 d hd]
  cases hlv : (getN A.node_layout A.head).last_child <;>
    cases hprev : (getN B.node_layout d).previous_sibling <;>
      simp [pureNode, hp, hprev, hlv]

/-- C2: after a successful `A.add_child B` with `A` non-empty and `B` a
valid donor (single root-level node at index `0`, no siblings, all other
nodes parented): if the head `h` had a `last_child` `c` then `c` gets
`next_sibling = some offset` and the node at `offset` gets
`previous_sibling = some c`; `h.last_child` becomes `some offset` (the last
donor root-level node, index `0`, plus offset); if `h` had no `first_child`
it becomes `some offset`; and the donor root's parent becomes `some h`. -/
theorem c2_add_child_links_donor_root_under_head {α : Type} (A B A' : Dom α)
    (hA : A.len ≠ 0) (hB : 0 < B.len)
    (h0p : (getN B.node_layout 0).parent = none)
    (h0prev : (getN B.node_layout 0).previous_sibling = none)
    (h0next : (getN B.node_layout 0).next_sibling = none)
    (hothers : ∀ k, k < B.len → 1 ≤ k → (getN B.node_layout k).parent ≠ none)
    (hs : A.add_child B = some A') :
    (∀ c, (getN A.node_layout A.head).last_child = some c →
      (getN A'.node_layout c).next_sibling = some A.len ∧
      (getN A'.node_layout A.len).previous_sibling = some c) ∧
    (getN A'.node_layout A.head).last_child = some A.len ∧
    ((getN A.node_layout A.head).first_child = none →
      (getN A'.node_layout A.head).first_child = some A.len) ∧
    (getN A'.node_layout A.len).parent = some A.head := by
  have hB' : B.len ≠ 0 := by omega
  obtain ⟨s, ls, hm, hh, hls, hA'⟩ := add_child_some_elim hB' hA hs
  obtain ⟨i1, i2, -, i4, -, i6⟩ := mergeLoop_invariant B.len s (Nat.le_refl _) hm
  obtain ⟨-, hcbound, hself⟩ :=
    mergeLoop_self_single_root h0p h0prev hothers B.len s hB (Nat.le_refl _) hm
  have hAlen : A.len = A.node_layout.length := rfl
  have hls0 : ls = 0 := by
    have hlsa := lastSibAux_single_root h0p h0next hothers B.len hB (Nat.le_refl _)
    rw [i4, hlsa] at hls
    exact (Option.some.inj hls).symm
  subst hls0
  -- the receiver part of the merged arena, before the head fix-ups
  have hheadnode : getN A'.node_layout A.head
      = { getN s.self_layout A.head with
          first_child := some ((getN s.self_layout A.head).first_child.getD A.len)
          last_child := some (0 + A.len) } := by
    rw [hA']
    show getN (_ ++ _) A.head = _
    rw [getN_append_left _ _ _ (by rw [length_modifyAt, i2]; exact hh)]
    exact getN_modifyAt_same _ _ _ (by rw [i2]; exact hh)
  have hoff : getN A'.node_layout A.len
      = pureNode A.len A.head (getN A.node_layout A.head).last_child
          (getN B.node_layout 0) := by
    rw [hA']
    show getN (_ ++ s.child_layout) A.len = _
    rw [getN_append_right _ _ _ (by rw [length_modifyAt, i2, ← hAlen])]
    rw [show A.len - (modifyAt s.self_layout A.head
        (fun n => { n with
          first_child := some (n.first_child.getD A.len)
          last_child := some (0 + A.len) })).length = 0 by
      rw [length_modifyAt, i2, ← hAlen]; omega]
    exact i6 0 hB
  refine ⟨?_, ?_, ?_, ?_⟩
  · intro c hc
    have hcsl : c < A.len := hcbound c hc
    have hselfc : s.self_layout = modifyAt A.node_layout c
        (fun nd => { nd with next_sibling := some (0 + A.len) }) := by
      rw [hc] at hself
      exact hself
    constructor
    · rw [hA']
      show (getN (_ ++ _) c).next_sibling = _
      rw [getN_append_left _ _ _ (by rw [length_modifyAt, i2, ← hAlen]; omega)]
      by_cases hch : c = A.head
      · subst hch
        rw [getN_modifyAt_same _ _ _ (by rw [i2, ← hAlen]; omega)]
        show (getN s.self_layout A.head).next_sibling = _
        rw [hselfc, getN_modifyAt_same _ _ _ (by rw [← hAlen]; omega)]
        simp
      · rw [getN_modifyAt_ne _ _ _ _ (fun hcon => hch hcon)]
        rw [hselfc, getN_modifyAt_same _ _ _ (by rw [← hAlen]; omega)]
        simp
    · rw [hoff]
      simp [pureNode, h0p, h0prev, hc]
  · rw [hheadnode]
    simp
  · intro hfc
    rw [hheadnode]
    have hpres : (getN s.self_layout A.head).first_child
        = (getN A.node_layout A.head).first_child := by
      cases hlv : (getN A.node_layout A.head).last_child with
      | none =>
        have hself0 : s.self_layout = A.node_layout := by
          rw [hlv] at hself
          exact hself
        rw [hself0]
      | some c =>
        have hselfc : s.self_layout = modifyAt A.node_layout c
            (fun nd => { nd with next_sibling := some (0 + A.len) }) := by
          rw [hlv] at hself
          exact hself
        rw [hselfc]
        exact (getN_modifyAt_ns_fields A.node_layout c _ A.head).2.2.1
    rw [hpres, hfc]
    simp
  · rw [hoff]
    simp [pureNode, h0p]

/-- Witness for C1 at a concrete input: a one-node receiver absorbs a
two-node donor; the donor's internal child (index 1, parent 0) lands at
index 2 with parent 1 and all other pointers still `none`. -/
theorem c1_witness :
    getN ({ node_layout :=
              [{ parent := none, previous_sibling := none, next_sibling := none,
                 first_child := some 1, last_child := some 1 },
               { parent := some 0, previous_sibling := none, next_sibling := none,
                 first_child := some 2, last_child := some 2 },
               { parent := some 1, previous_sibling := none, next_sibling := none,
                 first_child := none, last_child := none }]
            node_data := [0, 1, 2], root := 0, head := 0 } : Dom Nat).node_layout 2
      = { parent := some 1, previous_sibling := none, next_sibling := none,
          first_child := none, last_child := none } := by
  have h := c1_add_child_offsets_donor_internal_links
    ({ node_layout := [{ parent := none, previous_sibling := none, next_sibling := none,
                         first_child := none, last_child := none }]
       node_data := [0], root := 0, head := 0 } : Dom Nat)
    ({ node_layout := [{ parent := none, previous_sibling := none, next_sibling := none,
                         first_child := some 1, last_child := some 1 },
                       { parent := some 0, previous_sibling := none, next_sibling := none,
                         first_child := none, last_child := none }]
       node_data := [1, 2], root := 0, head := 0 } : Dom Nat)
    ({ node_layout :=
         [{ parent := none, previous_sibling := none, next_sibling := none,
            first_child := some 1, last_child := some 1 },
          { parent := some 0, previous_sibling := none, next_sibling := none,
            first_child := some 2, last_child := some 2 },
          { parent := some 1, previous_sibling := none, next_sibling := none,
            first_child := none, last_child := none }]
       node_data := [0, 1, 2], root := 0, head := 0 } : Dom Nat)
    (by decide) (by decide) (by decide) 1 0 (by decide) (by decide)
  simpa using h

/-- Witness for C2 at a concrete input: a root-with-one-child receiver
absorbs a single-node donor; the old last child 1 gets `next_sibling = 2`,
the donor root lands at 2 with `previous_sibling = 1` and `parent = 0`, and
the head's `last_child` becomes 2. -/
theorem c2_witness :
    (getN ({ node_layout :=
               [{ parent := none, previous_sibling := none, next_sibling := none,
                  first_child := some 1, last_child := some 2 },
                { parent := some 0, previous_sibling := none, next_sibling := some 2,
                  first_child := none, last_child := none },
                { parent := some 0, previous_sibling := some 1, next_sibling := none,
                  first_child := none, last_child := none }]
             node_data := [0, 0, 1], root := 0, head := 0 } : Dom Nat).node_layout 1).next_sibling
        = some 2 ∧
    (getN ({ node_layout :=
               [{ parent := none, previous_sibling := none, next_sibling := none,
                  first_child := some 1, last_child := some 2 },
                { parent := some 0, previous_sibling := none, next_sibling := some 2,
                  first_child := none, last_child := none },
                { parent := some 0, previous_sibling := some 1, next_sibling := none,
                  first_child := none, last_child := none }]
             node_data := [0, 0, 1], root := 0, head := 0 } : Dom Nat).node_layout 0).last_child
        = some 2 := by
  have h := c2_add_child_links_donor_root_under_head
    ({ node_layout := [{ parent := none, previous_sibling := none, next_sibling := none,
                         first_child := some 1, last_child := some 1 },
                       { parent := some 0, previous_sibling := none, next_sibling := none,
                         first_child := none, last_child := none }]
       node_data := [0, 0], root := 0, head := 0 } : Dom Nat)
    ({ node_layout := [{ parent := none, previous_sibling := none, next_sibling := none,
                         first_child := none, last_child := none }]
       node_data := [1], root := 0, head := 0 } : Dom Nat)
    ({ node_layout :=
         [{ parent := none, previous_sibling := none, next_sibling := none,
            first_child := some 1, last_child := some 2 },
          { parent := some 0, previous_sibling := none, next_sibling := some 2,
            first_child := none, last_child := none },
          { parent := some 0, previous_sibling := some 1, next_sibling := none,
            first_child := none, last_child := none }]
       node_data := [0, 0, 1], root := 0, head := 0 } : Dom Nat)
    (by decide) (by decide) (by decide) (by decide) (by decide) (by decide) (by decide)
  exact ⟨((h.1 1 (by decide)).1), by simpa using h.2.1⟩

/-- Witness for C3 at a concrete input: merging a two-node donor into a
one-node receiver yields three nodes. -/
theorem c3_witness :
    ({ node_layout :=
         [{ parent := none, previous_sibling := none, next_sibling := none,
            first_child := some 1, last_child := some 1 },
          { parent := some 0, previous_sibling := none, next_sibling := none,
            first_child := some 2, last_child := some 2 },
          { parent := some 1, previous_sibling := none, next_sibling := none,
            first_child := none, last_child := none }]
       node_data := [0, 1, 2], root := 0, head := 0 } : Dom Nat).len = 1 + 2 := by
  have h := c3_add_child_length
    ({ node_layout := [{ parent := none, previous_sibling := none, next_sibling := none,
                         first_child := none, last_child := none }]
       node_data := [0], root := 0, head := 0 } : Dom Nat)
    ({ node_layout := [{ parent := none, previous_sibling := none, next_sibling := none,
                         first_child := some 1, last_child := some 1 },
                       { parent := some 0, previous_sibling := none, next_sibling := none,
                         first_child := none, last_child := none }]
       node_data := [1, 2], root := 0, head := 0 } : Dom Nat)
    ({ node_layout :=
         [{ parent := none, previous_sibling := none, next_sibling := none,
            first_child := some 1, last_child := some 1 },
          { parent := some 0, previous_sibling := none, next_sibling := none,
            first_child := some 2, last_child := some 2 },
          { parent := some 1, previous_sibling := none, next_sibling := none,
            first_child := none, last_child := none }]
       node_data := [0, 1, 2], root := 0, head := 0 } : Dom Nat)
    (by decide)
  exact h.1 (by decide)

theorem filterInsertTagged_fst {β : Type} (i : Nat) (lst : List (β × Nat))
    (table : Nat → Option (List (β × Nat))) (ta : TagAlloc) :
    (filterInsertTagged i lst table ta).1
      = if lst.isEmpty then table else mapInsert table i lst := by
  by_cases h : lst.isEmpty <;> simp [filterInsertTagged, h]

theorem filterInsertTagged_ta_some {β : Type} (i : Nat) (lst : List (β × Nat))
    (table : Nat → Option (List (β × Nat))) (nt t : Nat) :
    (filterInsertTagged i lst table ⟨nt, some t⟩).2 = ⟨nt, some t⟩ := by
  by_cases h : lst.isEmpty <;> simp [filterInsertTagged, h]

theorem filterInsertTagged_ta_none {β : Type} (i : Nat) (lst : List (β × Nat))
    (table : Nat → Option (List (β × Nat))) (nt : Nat) :
    (filterInsertTagged i lst table ⟨nt, none⟩).2
      = if lst.isEmpty then ⟨nt, none⟩ else ⟨nt + 1, some nt⟩ := by
  by_cases h : lst.isEmpty <;> simp [filterInsertTagged, h]

theorem processSource_ta_none (i : Nat) (src : List (EventFilter × Nat))
    (hovT : Nat → Option (List (HoverEventFilter × Nat)))
    (focT : Nat → Option (List (FocusEventFilter × Nat)))
    (notT : Nat → Option (List (NotEventFilter × Nat)))
    (winT : Nat → Option (List (WindowEventFilter × Nat)))
    (dskT : Nat → Option (List (DesktopEventFilter × Nat)))
    (nt : Nat) :
    (processSource i src hovT focT notT winT dskT ⟨nt, none⟩).ta
      = if hitB src then ⟨nt + 1, some nt⟩ else ⟨nt, none⟩ := by
  by_cases hsrc : src.isEmpty
  · have hnil : src = [] := List.isEmpty_iff.mp hsrc
    subst hnil
    simp [processSource, hitB, filterHover, filterFocus, filterNot]
  · by_cases h1 : (filterHover src).isEmpty <;>
    by_cases h2 : (filterFocus src).isEmpty <;>
    by_cases h3 : (filterNot src).isEmpty <;>
      simp [processSource, hsrc, hitB, filterInsertTagged, h1, h2, h3]

theorem processSource_ta_some (i : Nat) (src : List (EventFilter × Nat))
    (hovT : Nat → Option (List (HoverEventFilter × Nat)))
    (focT : Nat → Option (List (FocusEventFilter × Nat)))
    (notT : Nat → Option (List (NotEventFilter × Nat)))
    (winT : Nat → Option (List (WindowEventFilter × Nat)))
    (dskT : Nat → Option (List (DesktopEventFilter × Nat)))
    (nt t : Nat) :
    (processSource i src hovT focT notT winT dskT ⟨nt, some t⟩).ta
      = ⟨nt, some t⟩ := by
  by_cases hsrc : src.isEmpty
  · simp [processSource, hsrc]
  · by_cases h1 : (filterHover src).isEmpty <;>
    by_cases h2 : (filterFocus src).isEmpty <;>
    by_cases h3 : (filterNot src).isEmpty <;>
      simp [processSource, hsrc, filterInsertTagged, h1, h2, h3]

theorem processSource_hovT (i : Nat) (src : List (EventFilter × Nat))
    (hovT : Nat → Option (List (HoverEventFilter × Nat)))
    (focT : Nat → Option (List (FocusEventFilter × Nat)))
    (notT : Nat → Option (List (NotEventFilter × Nat)))
    (winT : Nat → Option (List (WindowEventFilter × Nat)))
    (dskT : Nat → Option (List (DesktopEventFilter × Nat)))
    (ta : TagAlloc) :
    (processSource i src hovT focT notT winT dskT ta).hovT
      = if (filterHover src).isEmpty then hovT
        else mapInsert hovT i (filterHover src) := by
  by_cases hsrc : src.isEmpty
  · have hnil : src = [] := List.isEmpty_iff.mp hsrc
    subst hnil
    simp [processSource, filterHover]
  · by_cases h1 : (filterHover src).isEmpty <;>
      simp [processSource, hsrc, filterInsertTagged, h1]

theorem processSource_focT (i : Nat) (src : List (EventFilter × Nat))
    (hovT : Nat → Option (List (HoverEventFilter × Nat)))
    (focT : Nat → Option (List (FocusEventFilter × Nat)))
    (notT : Nat → Option (List (NotEventFilter × Nat)))
    (winT : Nat → Option (List (WindowEventFilter × Nat)))
    (dskT : Nat → Option (List (DesktopEventFilter × Nat)))
    (ta : TagAlloc) :
    (processSource i src hovT focT notT winT dskT ta).focT
      = if (filterFocus src).isEmpty then focT
        else mapInsert focT i (filterFocus src) := by
  by_cases hsrc : src.isEmpty
  · have hnil : src = [] := List.isEmpty_iff.mp hsrc
    subst hnil
    simp [processSource, filterFocus]
  · by_cases h2 : (filterFocus src).isEmpty <;>
      simp [processSource, hsrc, filterInsertTagged, h2]

theorem processSource_notT (i : Nat) (src : List (EventFilter × Nat))
    (hovT : Nat → Option (List (HoverEventFilter × Nat)))
    (focT : Nat → Option (List (FocusEventFilter × Nat)))
    (notT : Nat → Option (List (NotEventFilter × Nat)))
    (winT : Nat → Option (List (WindowEventFilter × Nat)))
    (dskT : Nat → Option (List (DesktopEventFilter × Nat)))
    (ta : TagAlloc) :
    (processSource i src hovT focT notT winT dskT ta).notT
      = if (filterNot src).isEmpty then notT
        else mapInsert notT i (filterNot src) := by
  by_cases hsrc : src.isEmpty
  · have hnil : src = [] := List.isEmpty_iff.mp hsrc
    subst hnil
    simp [processSource, filterNot]
  · by_cases h3 : (filterNot src).isEmpty <;>
      simp [processSource, hsrc, filterInsertTagged, h3]

theorem processSource_winT (i : Nat) (src : List (EventFilter × Nat))
    (hovT : Nat → Option (List (HoverEventFilter × Nat)))
    (focT : Nat → Option (List (FocusEventFilter × Nat)))
    (notT : Nat → Option (List (NotEventFilter × Nat)))
    (winT : Nat → Option (List (WindowEventFilter × Nat)))
    (dskT : Nat → Option (List (DesktopEventFilter × Nat)))
    (ta : TagAlloc) :
    (processSource i src hovT focT notT winT dskT ta).winT
      = if (filterWindow src).isEmpty then winT
        else mapInsert winT i (filterWindow src) := by
  by_cases hsrc : src.isEmpty
  · have hnil : src = [] := List.isEmpty_iff.mp hsrc
    subst hnil
    simp [processSource, filterWindow]
  · by_cases hw : (filterWindow src).isEmpty <;>
      simp [processSource, hsrc, filterInsertUntagged, hw]

theorem processSource_dskT (i : Nat) (src : List (EventFilter × Nat))
    (hovT : Nat → Option (List (HoverEventFilter × Nat)))
    (focT : Nat → Option (List (FocusEventFilter × Nat)))
    (notT : Nat → Option (List (NotEventFilter × Nat)))
    (winT : Nat → Option (List (WindowEventFilter × Nat)))
    (dskT : Nat → Option (List (DesktopEventFilter × Nat)))
    (ta : TagAlloc) :
    (processSource i src hovT focT notT winT dskT ta).dskT
      = if (filterDesktop src).isEmpty then dskT
        else mapInsert dskT i (filterDesktop src) := by
  by_cases hsrc : src.isEmpty
  · have hnil : src = [] := List.isEmpty_iff.mp hsrc
    subst hnil
    simp [processSource, filterDesktop]
  · by_cases hd : (filterDesktop src).isEmpty <;>
      simp [processSource, hsrc, filterInsertUntagged, hd]

/-- Full characterisation of one node's processing: the node's tag, when it
gets one, is the tag counter's value on entry; the counter advances exactly
when the node is taggable; every table receives at most the node's own
entry. -/
theorem processNode_spec (i : Nat) (d : NodeData) (s : UiState) :
    processNode i d s = {
      next_tag := if taggable d then s.next_tag + 1 else s.next_tag
      tab_index_tags :=
        match d.tab_index with
        | some ti => mapInsert s.tab_index_tags s.next_tag (i, ti)
        | none => s.tab_index_tags
      draggable_tags :=
        if d.draggable then mapInsert s.draggable_tags s.next_tag i
        else s.draggable_tags
      tag_ids_to_node_ids :=
        if taggable d then mapInsert s.tag_ids_to_node_ids s.next_tag i
        else s.tag_ids_to_node_ids
      node_ids_to_tag_ids :=
        if taggable d then mapInsert s.node_ids_to_tag_ids i s.next_tag
        else s.node_ids_to_tag_ids
      dynamic_css_overrides :=
        if d.dynamic_css_overrides.isEmpty then s.dynamic_css_overrides
        else mapInsert s.dynamic_css_overrides i d.dynamic_css_overrides
      hover_callbacks :=
        if (filterHover d.callbacks).isEmpty then s.hover_callbacks
        else mapInsert s.hover_callbacks i (filterHover d.callbacks)
      hover_default_callbacks :=
        if (filterHover d.default_callback_ids).isEmpty then s.hover_default_callbacks
        else mapInsert s.hover_default_callbacks i (filterHover d.default_callback_ids)
      focus_callbacks :=
        if (filterFocus d.callbacks).isEmpty then s.focus_callbacks
        else mapInsert s.focus_callbacks i (filterFocus d.callbacks)
      focus_default_callbacks :=
        if (filterFocus d.default_callback_ids).isEmpty then s.focus_default_callbacks
        else mapInsert s.focus_default_callbacks i (filterFocus d.default_callback_ids)
      not_callbacks :=
        if (filterNot d.callbacks).isEmpty then s.not_callbacks
        else mapInsert s.not_callbacks i (filterNot d.callbacks)
      not_default_callbacks :=
        if (filterNot d.default_callback_ids).isEmpty then s.not_default_callbacks
        else mapInsert s.not_default_callbacks i (filterNot d.default_callback_ids)
      window_callbacks :=
        if (filterWindow d.callbacks).isEmpty then s.window_callbacks
        else mapInsert s.window_callbacks i (filterWindow d.callbacks)
      window_default_callbacks :=
        if (filterWindow d.default_callback_ids).isEmpty then s.window_default_callbacks
        else mapInsert s.window_default_callbacks i (filterWindow d.default_callback_ids)
      desktop_callbacks :=
        if (filterDesktop d.callbacks).isEmpty then s.desktop_callbacks
        else mapInsert s.desktop_callbacks i (filterDesktop d.callbacks)
      desktop_default_callbacks :=
        if (filterDesktop d.default_callback_ids).isEmpty then s.desktop_default_callbacks
        else mapInsert s.desktop_default_callbacks i
          (filterDesktop d.default_callback_ids) } := by
  cases hg1 : hitB d.callbacks <;>
  cases hg2 : hitB d.default_callback_ids <;>
  cases hg3 : d.draggable <;>
  cases hti : d.tab_index <;>
    simp [processNode, taggable, hg1, hg2, hg3, hti,
      processSource_ta_none, processSource_ta_some,
      processSource_hovT, processSource_focT, processSource_notT,
      processSource_winT, processSource_dskT]

theorem tagCount_mono (data : List NodeData) {k n : Nat} (h : k ≤ n) :
    tagCount data k ≤ tagCount data n := by
  induction n with
  | zero =>
    have hk : k = 0 := by omega
    subst hk
    exact Nat.le_refl _
  | succ n ih =>
    by_cases hk : k = n + 1
    · subst hk
      exact Nat.le_refl _
    · have h1 := ih (by omega)
      have h2 : tagCount data n ≤ tagCount data (n + 1) := by
        have he : tagCount data (n + 1) = tagCount data n
            + (if taggable (data.getD n NodeData.default) then 1 else 0) := rfl
        rw [he]
        exact Nat.le_add_right _ _
      omega

theorem tagCount_lt (data : List NodeData) {k n : Nat} (h : k < n)
    (ht : taggable (data.getD k NodeData.default) = true) :
    tagCount data k < tagCount data n := by
  have h1 : tagCount data k + 1 ≤ tagCount data (k + 1) := by
    have he : tagCount data (k + 1) = tagCount data k
        + (if taggable (data.getD k NodeData.default) then 1 else 0) := rfl
    rw [he, ht]
    simp
  have h2 : tagCount data (k + 1) ≤ tagCount data n := tagCount_mono data (by omega)
  omega

theorem buildLoop_next_tag (data : List NodeData) :
    ∀ n, (buildLoop data n).next_tag = 1 + tagCount data n := by
  intro n
  induction n with
  | zero => rfl
  | succ n ih =>
    show (processNode n (data.getD n NodeData.default) (buildLoop data n)).next_tag = _
    rw [processNode_spec]
    show (if taggable (data.getD n NodeData.default) then (buildLoop data n).next_tag + 1
          else (buildLoop data n).next_tag) = _
    rw [ih, show tagCount data (n + 1) = tagCount data n
        + (if taggable (data.getD n NodeData.default) then 1 else 0) from rfl]
    by_cases ht : taggable (data.getD n NodeData.default)
    · rw [if_pos ht, if_pos ht]
      omega
    · rw [if_neg ht, if_neg ht]
      omega

theorem buildLoop_tag_to_node (data : List NodeData) :
    ∀ n t k, (buildLoop data n).tag_ids_to_node_ids t = some k ↔
      (k < n ∧ taggable (data.getD k NodeData.default) = true ∧
        t = 1 + tagCount data k) := by
  intro n
  induction n with
  | zero =>
    intro t k
    simp [buildLoop, initUiState]
  | succ n ih =>
    intro t k
    have hstep : (buildLoop data (n + 1)).tag_ids_to_node_ids
        = (processNode n (data.getD n NodeData.default) (buildLoop data n)).tag_ids_to_node_ids := rfl
    rw [hstep, processNode_spec]
    by_cases ht : taggable (data.getD n NodeData.default)
    · simp only [ht, if_true, if_pos]
      show mapInsert (buildLoop data n).tag_ids_to_node_ids
          (buildLoop data n).next_tag n t = some k ↔ _
      unfold mapInsert
      rw [buildLoop_next_tag]
      by_cases htag : t = 1 + tagCount data n
      · subst htag
        rw [if_pos rfl]
        constructor
        · intro hsome
          have hkn : k = n := (Option.some.inj hsome).symm
          subst hkn
          exact ⟨by omega, ht, rfl⟩
        · rintro ⟨hk, htg, hteq⟩
          by_cases hk' : k = n
          · subst hk'
            rfl
          · have hkn : k < n := by omega
            have := tagCount_lt data hkn htg
            omega
      · rw [if_neg htag, ih t k]
        constructor
        · rintro ⟨hk, htg, hteq⟩
          exact ⟨by omega, htg, hteq⟩
        · rintro ⟨hk, htg, hteq⟩
          refine ⟨?_, htg, hteq⟩
          by_cases hk' : k = n
          · subst hk'
            exact absurd hteq htag
          · omega
    · simp only [ht, if_false, if_neg]
      show (buildLoop data n).tag_ids_to_node_ids t = some k ↔ _
      rw [ih t k]
      constructor
      · rintro ⟨hk, htg, hteq⟩
        exact ⟨by omega, htg, hteq⟩
      · rintro ⟨hk, htg, hteq⟩
        refine ⟨?_, htg, hteq⟩
        by_cases hk' : k = n
        · subst hk'
          rw [htg] at ht
          exact absurd rfl ht
        · omega

theorem buildLoop_node_to_tag (data : List NodeData) :
    ∀ n k t, (buildLoop data n).node_ids_to_tag_ids k = some t ↔
      (k < n ∧ taggable (data.getD k NodeData.default) = true ∧
        t = 1 + tagCount data k) := by
  intro n
  induction n with
  | zero =>
    intro k t
    simp [buildLoop, initUiState]
  | succ n ih =>
    intro k t
    have hstep : (buildLoop data (n + 1)).node_ids_to_tag_ids
        = (processNode n (data.getD n NodeData.default) (buildLoop data n)).node_ids_to_tag_ids := rfl
    rw [hstep, processNode_spec]
    by_cases ht : taggable (data.getD n NodeData.default)
    · simp only [ht, if_true, if_pos]
      show mapInsert (buildLoop data n).node_ids_to_tag_ids n
          (buildLoop data n).next_tag k = some t ↔ _
      unfold mapInsert
      rw [buildLoop_next_tag]
      by_cases hk' : k = n
      · subst hk'
        rw [if_pos rfl]
        constructor
        · intro hsome
          exact ⟨by omega, ht, (Option.some.inj hsome).symm⟩
        · rintro ⟨-, -, hteq⟩
          rw [hteq]
      · rw [if_neg hk', ih k t]
        constructor
        · rintro ⟨hk, htg, hteq⟩
          exact ⟨by omega, htg, hteq⟩
        · rintro ⟨hk, htg, hteq⟩
          exact ⟨by omega, htg, hteq⟩
    · simp only [ht, if_false, if_neg]
      show (buildLoop data n).node_ids_to_tag_ids k = some t ↔ _
      rw [ih k t]
      constructor
      · rintro ⟨hk, htg, hteq⟩
        exact ⟨by omega, htg, hteq⟩
      · rintro ⟨hk, htg, hteq⟩
        refine ⟨?_, htg, hteq⟩
        by_cases hk'' : k = n
        · subst hk''
          rw [htg] at ht
          exact absurd rfl ht
        · omega

theorem buildLoop_window (data : List NodeData) :
    ∀ n k, (buildLoop data n).window_callbacks k =
      if k < n ∧ ¬(filterWindow (data.getD k NodeData.default).callbacks).isEmpty
      then some (filterWindow (data.getD k NodeData.default).callbacks)
      else none := by
  intro n
  induction n with
  | zero =>
    intro k
    simp [buildLoop, initUiState]
  | succ n ih =>
    intro k
    have hstep : (buildLoop data (n + 1)).window_callbacks
        = (processNode n (data.getD n NodeData.default) (buildLoop data n)).window_callbacks := rfl
    rw [hstep, processNode_spec]
    by_cases hw : (filterWindow (data.getD n NodeData.default).callbacks).isEmpty
    · simp only [hw, if_true, if_pos]
      show (buildLoop data n).window_callbacks k = _
      rw [ih k]
      by_cases hk' : k = n
      · subst hk'
        rw [if_neg (by simp), if_neg (fun hcon => hcon.2 hw)]
      · by_cases hcond : k < n ∧
            ¬(filterWindow (data.getD k NodeData.default).callbacks).isEmpty
        · rw [if_pos hcond, if_pos ⟨by omega, hcond.2⟩]
        · rw [if_neg hcond, if_neg (by rintro ⟨hx, hy⟩; exact hcond ⟨by omega, hy⟩)]
    · simp only [hw, if_false, if_neg]
      show mapInsert (buildLoop data n).window_callbacks n
          (filterWindow (data.getD n NodeData.default).callbacks) k = _
      unfold mapInsert
      by_cases hk' : k = n
      · subst hk'
        rw [if_pos rfl, if_pos ⟨by omega, hw⟩]
      · rw [if_neg hk', ih k]
        by_cases hcond : k < n ∧
            ¬(filterWindow (data.getD k NodeData.default).callbacks).isEmpty
        · rw [if_pos hcond, if_pos ⟨by omega, hcond.2⟩]
        · rw [if_neg hcond, if_neg (by rintro ⟨hx, hy⟩; exact hcond ⟨by omega, hy⟩)]

theorem buildLoop_desktop (data : List NodeData) :
    ∀ n k, (buildLoop data n).desktop_callbacks k =
      if k < n ∧ ¬(filterDesktop (data.getD k NodeData.default).callbacks).isEmpty
      then some (filterDesktop (data.getD k NodeData.default).callbacks)
      else none := by
  intro n
  induction n with
  | zero =>
    intro k
    simp [buildLoop, initUiState]
  | succ n ih =>
    intro k
    have hstep : (buildLoop data (n + 1)).desktop_callbacks
        = (processNode n (data.getD n NodeData.default) (buildLoop data n)).desktop_callbacks := rfl
    rw [hstep, processNode_spec]
    by_cases hw : (filterDesktop (data.getD n NodeData.default).callbacks).isEmpty
    · simp only [hw, if_true, if_pos]
      show (buildLoop data n).desktop_callbacks k = _
      rw [ih k]
      by_cases hk' : k = n
      · subst hk'
        rw [if_neg (by simp), if_neg (fun hcon => hcon.2 hw)]
      · by_cases hcond : k < n ∧
            ¬(filterDesktop (data.getD k NodeData.default).callbacks).isEmpty
        · rw [if_pos hcond, if_pos ⟨by omega, hcond.2⟩]
        · rw [if_neg hcond, if_neg (by rintro ⟨hx, hy⟩; exact hcond ⟨by omega, hy⟩)]
    · simp only [hw, if_false, if_neg]
      show mapInsert (buildLoop data n).desktop_callbacks n
          (filterDesktop (data.getD n NodeData.default).callbacks) k = _
      unfold mapInsert
      by_cases hk' : k = n
      · subst hk'
        rw [if_pos rfl, if_pos ⟨by omega, hw⟩]
      · rw [if_neg hk', ih k]
        by_cases hcond : k < n ∧
            ¬(filterDesktop (data.getD k NodeData.default).callbacks).isEmpty
        · rw [if_pos hcond, if_pos ⟨by omega, hcond.2⟩]
        · rw [if_neg hcond, if_neg (by rintro ⟨hx, hy⟩; exact hcond ⟨by omega, hy⟩)]

theorem hitB_iff (src : List (EventFilter × Nat)) :
    hitB src = true ↔ ∃ p ∈ src, isHitTestable p.1 = true := by
  have hH : (!(filterHover src).isEmpty) = true ↔
      ∃ p ∈ src, p.1.as_hover_event_filter ≠ none := by
    simp [filterHover, List.isEmpty_eq_false, List.filterMap_eq_nil_iff,
      Option.map_eq_none']
  have hF : (!(filterFocus src).isEmpty) = true ↔
      ∃ p ∈ src, p.1.as_focus_event_filter ≠ none := by
    simp [filterFocus, List.isEmpty_eq_false, List.filterMap_eq_nil_iff,
      Option.map_eq_none']
  have hN : (!(filterNot src).isEmpty) = true ↔
      ∃ p ∈ src, p.1.as_not_event_filter ≠ none := by
    simp [filterNot, List.isEmpty_eq_false, List.filterMap_eq_nil_iff,
      Option.map_eq_none']
  unfold hitB
  rw [Bool.or_eq_true, Bool.or_eq_true, hH, hF, hN]
  constructor
  · rintro ((⟨p, hm, hp⟩ | ⟨p, hm, hp⟩) | ⟨p, hm, hp⟩) <;>
    · refine ⟨p, hm, ?_⟩
      cases hef : p.1 <;> rw [hef] at hp <;>
        first
        | rfl
        | exact absurd rfl hp
  · rintro ⟨p, hm, hp⟩
    cases hef : p.1 with
    | Hover h =>
      exact Or.inl (Or.inl ⟨p, hm, by
        rw [hef]; simp [EventFilter.as_hover_event_filter]⟩)
    | Not nn =>
      exact Or.inr ⟨p, hm, by
        rw [hef]; simp [EventFilter.as_not_event_filter]⟩
    | Focus f =>
      exact Or.inl (Or.inr ⟨p, hm, by
        rw [hef]; simp [EventFilter.as_focus_event_filter]⟩)
    | Window w =>
      rw [hef] at hp
      simp [isHitTestable] at hp
    | Desktop dd =>
      rw [hef] at hp
      simp [isHitTestable] at hp

theorem taggable_iff (d : NodeData) :
    taggable d = true ↔
      ((∃ p ∈ d.callbacks ++ d.default_callback_ids, isHitTestable p.1 = true) ∨
        d.draggable = true ∨ d.tab_index ≠ none) := by
  unfold taggable
  simp only [Bool.or_eq_true, hitB_iff, Option.isSome_iff_ne_none]
  constructor
  · rintro (((⟨p, hm, hp⟩ | ⟨p, hm, hp⟩) | h) | h)
    · exact Or.inl ⟨p, List.mem_append_left _ hm, hp⟩
    · exact Or.inl ⟨p, List.mem_append_right _ hm, hp⟩
    · exact Or.inr (Or.inl h)
    · exact Or.inr (Or.inr h)
  · rintro (⟨p, hm, hp⟩ | h | h)
    · rcases List.mem_append.mp hm with hm' | hm'
      · exact Or.inl (Or.inl (Or.inl ⟨p, hm', hp⟩))
      · exact Or.inl (Or.inl (Or.inr ⟨p, hm', hp⟩))
    · exact Or.inl (Or.inr h)
    · exact Or.inr h

theorem tagCount_surj (data : List NodeData) :
    ∀ n t, 1 ≤ t → t < 1 + tagCount data n →
      ∃ k, k < n ∧ taggable (data.getD k NodeData.default) = true ∧
        t = 1 + tagCount data k := by
  intro n
  induction n with
  | zero =>
    intro t h1 h2
    have : tagCount data 0 = 0 := rfl
    omega
  | succ n ih =>
    intro t h1 h2
    have he : tagCount data (n + 1) = tagCount data n
        + (if taggable (data.getD n NodeData.default) then 1 else 0) := rfl
    by_cases hlt : t < 1 + tagCount data n
    · obtain ⟨k, hk, htg, hteq⟩ := ih t h1 hlt
      exact ⟨k, by omega, htg, hteq⟩
    · by_cases ht : taggable (data.getD n NodeData.default)
      · rw [he, if_pos ht] at h2
        exact ⟨n, by omega, ht, by omega⟩
      · rw [he, if_neg ht] at h2
        omega

/-- C4: in `into_ui_state`, a node appears in the node→tag map (and,
symmetrically, as a value of the tag→node map) exactly when it carries at
least one regular or default callback with a `Hover`, `Focus` or `Not`
filter, is draggable, or has a tab index; and its window / desktop callback
projections, when non-empty, are recorded keyed by the node index alone
(no tag). -/
theorem c4_tag_iff_hit_testable (dom : Dom NodeData) (i : Nat)
    (hi : i < dom.node_data.length) :
    ((∃ t, (dom.into_ui_state).node_ids_to_tag_ids i = some t) ↔
      ((∃ p ∈ (dom.node_data.getD i NodeData.default).callbacks ++
          (dom.node_data.getD i NodeData.default).default_callback_ids,
          isHitTestable p.1 = true) ∨
        (dom.node_data.getD i NodeData.default).draggable = true ∨
        (dom.node_data.getD i NodeData.default).tab_index ≠ none)) ∧
    ((∃ t, (dom.into_ui_state).tag_ids_to_node_ids t = some i) ↔
      ((∃ p ∈ (dom.node_data.getD i NodeData.default).callbacks ++
          (dom.node_data.getD i NodeData.default).default_callback_ids,
          isHitTestable p.1 = true) ∨
        (dom.node_data.getD i NodeData.default).draggable = true ∨
        (dom.node_data.getD i NodeData.default).tab_index ≠ none)) ∧
    (filterWindow (dom.node_data.getD i NodeData.default).callbacks ≠ [] →
      (dom.into_ui_state).window_callbacks i
        = some (filterWindow (dom.node_data.getD i NodeData.default).callbacks)) ∧
    (filterDesktop (dom.node_data.getD i NodeData.default).callbacks ≠ [] →
      (dom.into_ui_state).desktop_callbacks i
        = some (filterDesktop (dom.node_data.getD i NodeData.default).callbacks)) := by
  refine ⟨?_, ?_, ?_, ?_⟩
  · constructor
    · rintro ⟨t, ht⟩
      have hc := (buildLoop_node_to_tag dom.node_data dom.node_data.length i t).mp ht
      exact (taggable_iff _).mp hc.2.1
    · intro hcond
      exact ⟨1 + tagCount dom.node_data i,
        (buildLoop_node_to_tag dom.node_data dom.node_data.length i _).mpr
          ⟨hi, (taggable_iff _).mpr hcond, rfl⟩⟩
  · constructor
    · rintro ⟨t, ht⟩
      have hc := (buildLoop_tag_to_node dom.node_data dom.node_data.length t i).mp ht
      exact (taggable_iff _).mp hc.2.1
    · intro hcond
      exact ⟨1 + tagCount dom.node_data i,
        (buildLoop_tag_to_node dom.node_data dom.node_data.length _ i).mpr
          ⟨hi, (taggable_iff _).mpr hcond, rfl⟩⟩
  · intro hne
    have hw := buildLoop_window dom.node_data dom.node_data.length i
    rw [show (dom.into_ui_state).window_callbacks
        = (buildLoop dom.node_data dom.node_data.length).window_callbacks from rfl, hw,
      if_pos ⟨hi, fun hc => hne (List.isEmpty_iff.mp hc)⟩]
  · intro hne
    have hd := buildLoop_desktop dom.node_data dom.node_data.length i
    rw [show (dom.into_ui_state).desktop_callbacks
        = (buildLoop dom.node_data dom.node_data.length).desktop_callbacks from rfl, hd,
      if_pos ⟨hi, fun hc => hne (List.isEmpty_iff.mp hc)⟩]

/-- C5: within one `into_ui_state` build, the tag↔node maps are exact
inverses; the allocated tags are exactly `1, 2, ..., next_tag - 1` (first
tag 1, each subsequent one strictly greater, no duplicates, `next_tag`
being the counter after the build); tag order agrees with traversal order;
and no node carries two tags. -/
theorem c5_tags_fresh_increasing_inverse_maps (dom : Dom NodeData) :
    (∀ t n, (dom.into_ui_state).tag_ids_to_node_ids t = some n ↔
      (dom.into_ui_state).node_ids_to_tag_ids n = some t) ∧
    (∀ t n, (dom.into_ui_state).tag_ids_to_node_ids t = some n →
      1 ≤ t ∧ t < (dom.into_ui_state).next_tag) ∧
    (∀ t, 1 ≤ t → t < (dom.into_ui_state).next_tag →
      ∃ n, (dom.into_ui_state).tag_ids_to_node_ids t = some n) ∧
    (∀ t t' n n', (dom.into_ui_state).tag_ids_to_node_ids t = some n →
      (dom.into_ui_state).tag_ids_to_node_ids t' = some n' →
      (t < t' ↔ n < n')) ∧
    (∀ t t' n, (dom.into_ui_state).tag_ids_to_node_ids t = some n →
      (dom.into_ui_state).tag_ids_to_node_ids t' = some n → t = t') := by
  have hT := buildLoop_tag_to_node dom.node_data dom.node_data.length
  have hN := buildLoop_node_to_tag dom.node_data dom.node_data.length
  have hnt : (dom.into_ui_state).next_tag
      = 1 + tagCount dom.node_data dom.node_data.length :=
    buildLoop_next_tag dom.node_data dom.node_data.length
  refine ⟨?_, ?_, ?_, ?_, ?_⟩
  · intro t n
    rw [show (dom.into_ui_state).tag_ids_to_node_ids
        = (buildLoop dom.node_data dom.node_data.length).tag_ids_to_node_ids from rfl,
      show (dom.into_ui_state).node_ids_to_tag_ids
        = (buildLoop dom.node_data dom.node_data.length).node_ids_to_tag_ids from rfl,
      hT t n, hN n t]
  · intro t n ht
    obtain ⟨hn, htg, hteq⟩ := (hT t n).mp ht
    rw [hnt]
    have := tagCount_lt dom.node_data hn htg
    omega
  · intro t h1 h2
    rw [hnt] at h2
    obtain ⟨k, hk, htg, hteq⟩ := tagCount_surj dom.node_data dom.node_data.length t h1 h2
    exact ⟨k, (hT t k).mpr ⟨hk, htg, hteq⟩⟩
  · intro t t' n n' ht ht'
    obtain ⟨hn, htg, hteq⟩ := (hT t n).mp ht
    obtain ⟨hn', htg', hteq'⟩ := (hT t' n').mp ht'
    constructor
    · intro hlt
      rcases Nat.lt_trichotomy n n' with h | h | h
      · exact h
      · subst h
        omega
      · have := tagCount_lt dom.node_data h htg'
        omega
    · intro hlt
      have := tagCount_lt dom.node_data hlt htg
      omega
  · intro t t' n ht ht'
    obtain ⟨-, -, hteq⟩ := (hT t n).mp ht
    obtain ⟨-, -, hteq'⟩ := (hT t' n).mp ht'
    omega

/-- Witness for C4 at a concrete input: a single node carrying only a
window-category callback gets an entry in `window_callbacks` keyed by the
node index, and — per the iff, instantiated the other way on a draggable
node — a draggable node does appear in the node→tag map. -/
theorem c4_witness :
    (Dom.into_ui_state
      { node_layout := [nullNode]
        node_data := [{ NodeData.default with
          callbacks := [(EventFilter.Window WindowEventFilter.MouseOver, 7)] }]
        root := 0, head := 0 }).window_callbacks 0
      = some [(WindowEventFilter.MouseOver, 7)] := by
  have h := c4_tag_iff_hit_testable
    { node_layout := [nullNode]
      node_data := [{ NodeData.default with
        callbacks := [(EventFilter.Window WindowEventFilter.MouseOver, 7)] }]
      root := 0, head := 0 } 0 (by decide)
  exact h.2.2.1 (by decide)

/-- Witness for C5 at a concrete input: in a single-node build where the
node is draggable, the tag `1` (the first and only tag) is allocated and
resolves to some node. -/
theorem c5_witness :
    ∃ n, (Dom.into_ui_state
      { node_layout := [nullNode]
        node_data := [{ NodeData.default with draggable := true }]
        root := 0, head := 0 }).tag_ids_to_node_ids 1 = some n :=
  (c5_tags_fresh_increasing_inverse_maps
    { node_layout := [nullNode]
      node_data := [{ NodeData.default with draggable := true }]
      root := 0, head := 0 }).2.2.1 1 (by decide) (by decide)

end Azul
